import Mathlib

/-!
# Verification of the visual-difference detector

Shallow embedding of `detectVisualDifferences` (services/diffService.ts):
the Grid Differ (per-cell pixel scan building a magenta diff mask and a
changed-cell grid), the Region Clusterer (queue-based 8-connected flood
fill over the cell grid emitting percentage bounding boxes), and the
orchestrating pipeline.

Byte buffers (`Uint8ClampedArray`, `Uint8Array`) are embedded as total
functions `Nat → Nat` from flat index to byte value, a store `buf[i] = v`
becoming a pointwise functional update; the nested `for` loops are
embedded as left folds over the row-major list of their iteration pairs.
JS `number` arithmetic on the percentage boxes is embedded as exact
rational arithmetic.  A second embedding with `List`-backed buffers and
`Option`-returning index accesses is given further down to settle the
in-bounds claim.
-/

set_option autoImplicit false

namespace TaxDiff

-- Batteries marks rational multiplication and inversion `@[irreducible]`,
-- which blocks `decide` from evaluating the percentage boxes on concrete
-- inputs; restore the default reducibility locally.
attribute [local semireducible] Rat.mul Rat.inv

/-- Pointwise update of a byte-buffer function, modelling a single
`buf[i] = v` store into a JS typed array. -/
def upd (m : Nat → Nat) (i v : Nat) : Nat → Nat :=
  fun j => if j = i then v else m j

/-- A decoded raster image: `width × height` RGBA pixels, `data` giving
the byte at each index of the flat row-major buffer (4 bytes per pixel,
R,G,B,A). -/
structure Image where
  width : Nat
  height : Nat
  data : Nat → Nat

/-- Reading back a `w × h` canvas after `clearRect` followed by
`drawImage(img, 0, 0)`: positions covered by the drawn image yield the
image's bytes, positions outside it stay transparent black `(0,0,0,0)`.
Index `i` decomposes as `i = ((y*w + x)*4 + k` with `k < 4`. -/
def canvasRead (img : Image) (w : Nat) : Nat → Nat :=
  fun i =>
    let k := i % 4
    let p := i / 4
    let x := p % w
    let y := p / w
    if x < img.width ∧ y < img.height then img.data ((y * img.width + x) * 4 + k) else 0

/-- `Math.abs(data1[i]-data2[i]) + Math.abs(data1[i+1]-data2[i+1]) +
Math.abs(data1[i+2]-data2[i+2])`: sum of absolute RGB channel
differences of the pixel whose R byte sits at index `i`; the alpha byte
`i+3` is ignored. -/
def colorDist (d1 d2 : Nat → Nat) (i : Nat) : Nat :=
  ((d1 i : Int) - (d2 i : Int)).natAbs +
    ((d1 (i + 1) : Int) - (d2 (i + 1) : Int)).natAbs +
    ((d1 (i + 2) : Int) - (d2 (i + 2) : Int)).natAbs

/-- Body of the innermost pixel loop of the Grid Differ.  State is
`(diffPixels, maskData)`; the pixel is `q = (y, x)`.  A differing pixel
(`colorDist > pixelThreshold`) bumps the counter and stores opaque
magenta `(255,0,255,255)` at its four mask bytes; otherwise only the
alpha byte is stored as `0`. -/
def procPixel (d1 d2 : Nat → Nat) (w pt : Nat) (st : Nat × (Nat → Nat)) (q : Nat × Nat) :
    Nat × (Nat → Nat) :=
  let i := (q.1 * w + q.2) * 4
  if colorDist d1 d2 i > pt then
    (st.1 + 1, upd (upd (upd (upd st.2 i 255) (i + 1) 0) (i + 2) 255) (i + 3) 255)
  else
    (st.1, upd st.2 (i + 3) 0)

/-- The pixel coordinates `(y, x)` scanned for cell `(r, c)`: the loop
bounds `startY = r*cs`, `endY = min (startY + cs) h` (and likewise for
`x`), flattened into the row-major list of iterations. -/
def cellPixels (cs w h r c : Nat) : List (Nat × Nat) :=
  let startY := r * cs
  let startX := c * cs
  let endY := min (startY + cs) h
  let endX := min (startX + cs) w
  (List.range' startY (endY - startY)).flatMap (fun y =>
    (List.range' startX (endX - startX)).map (fun x => (y, x)))

/-- One iteration of the cell loop of the Grid Differ: scan the cell's
pixels starting from `diffPixels = 0`, keep the updated mask, and flag
the cell in the grid when `diffPixels > cellChangedThreshold`.  State is
`(maskData, grid)`; the cell is `rc = (r, c)`. -/
def procCell (d1 d2 : Nat → Nat) (w h cs pt ct cols : Nat)
    (st : (Nat → Nat) × (Nat → Nat)) (rc : Nat × Nat) : (Nat → Nat) × (Nat → Nat) :=
  let res := (cellPixels cs w h rc.1 rc.2).foldl (procPixel d1 d2 w pt) (0, st.1)
  (res.2, if res.1 > ct then upd st.2 (rc.1 * cols + rc.2) 1 else st.2)

/-- The cells `(r, c)` visited by the two nested cell loops
(`r < rows`, `c < cols`), flattened in row-major order. -/
def gridCells (rows cols : Nat) : List (Nat × Nat) :=
  (List.range rows).flatMap (fun r => (List.range cols).map (fun c => (r, c)))

/-- The Grid Differ: `cols = ceil(w/cs)`, `rows = ceil(h/cs)`; scan every
cell, building the diff mask (initially the all-zero buffer of
`createImageData`) and the changed-cell grid (initially the all-zero
`Uint8Array`).  Returns `(maskData, grid)`. -/
def gridDiff (d1 d2 : Nat → Nat) (w h cs pt ct : Nat) : (Nat → Nat) × (Nat → Nat) :=
  let cols := (w + cs - 1) / cs
  let rows := (h + cs - 1) / cs
  (gridCells rows cols).foldl (procCell d1 d2 w h cs pt ct cols) (fun _ => 0, fun _ => 0)

/-- A detected region: sequential string id and `[yMin, xMin, yMax, xMax]`
bounding box in percentages of the image dimensions. -/
structure DiffRegion where
  id : String
  boundingBox : ℚ × ℚ × ℚ × ℚ
deriving DecidableEq, Repr

/-- State of one breadth-first flood fill of the Region Clusterer:
the explicit worklist `queue`, the shared `visited` buffer, the running
bounding cell coordinates, and a ghost trace `cells` recording every
cell this flood marked visited (the seed plus each enqueued neighbor).
The ghost trace is never read by the algorithm. -/
structure FloodState where
  queue : List (Nat × Nat)
  visited : Nat → Nat
  minR : Nat
  maxR : Nat
  minC : Nat
  maxC : Nat
  cells : List (Nat × Nat)

/-- The eight neighbor coordinates `[r±1, c±1]` probed from `(r, c)`,
as integers since the first row/column produce `-1` entries. -/
def neighborList (r c : Nat) : List (Int × Int) :=
  [((r : Int) - 1, (c : Int)), ((r : Int) + 1, (c : Int)),
   ((r : Int), (c : Int) - 1), ((r : Int), (c : Int) + 1),
   ((r : Int) - 1, (c : Int) - 1), ((r : Int) - 1, (c : Int) + 1),
   ((r : Int) + 1, (c : Int) - 1), ((r : Int) + 1, (c : Int) + 1)]

/-- Probe one neighbor: if it is inside the grid, changed, and not yet
visited, mark it visited, enqueue it, and record it in the ghost trace. -/
def tryVisit (grid : Nat → Nat) (rows cols : Nat) (st : FloodState) (n : Int × Int) :
    FloodState :=
  if 0 ≤ n.1 ∧ n.1 < (rows : Int) ∧ 0 ≤ n.2 ∧ n.2 < (cols : Int) then
    let nR := n.1.toNat
    let nC := n.2.toNat
    let nIdx := nR * cols + nC
    if grid nIdx = 1 ∧ st.visited nIdx = 0 then
      { st with visited := upd st.visited nIdx 1,
                queue := st.queue ++ [(nR, nC)],
                cells := st.cells ++ [(nR, nC)] }
    else st
  else st

/-- One iteration of the `while (queue.length > 0)` loop: dequeue the
front cell, fold it into the running bounds, and probe its eight
neighbors. -/
def floodStep (grid : Nat → Nat) (rows cols : Nat) (st : FloodState) : FloodState :=
  match st.queue with
  | [] => st
  | (curR, curC) :: rest =>
    let st1 : FloodState :=
      { st with queue := rest,
                minR := min st.minR curR, maxR := max st.maxR curR,
                minC := min st.minC curC, maxC := max st.maxC curC }
    (neighborList curR curC).foldl (tryVisit grid rows cols) st1

/-- The flood-fill `while` loop, embedded with explicit fuel (the callers
pass `rows * cols`, which is shown sufficient for the queue to drain). -/
def floodLoop (grid : Nat → Nat) (rows cols : Nat) : Nat → FloodState → FloodState
  | 0, st => st
  | fuel + 1, st =>
    if st.queue = [] then st
    else floodLoop grid rows cols fuel (floodStep grid rows cols st)

/-- State of the outer row-major scan of the Region Clusterer, with the
ghost list `regionCells` recording, per emitted region, the cells its
flood fill claimed (never read by the algorithm). -/
structure ScanState where
  visited : Nat → Nat
  regions : List DiffRegion
  regionCells : List (List (Nat × Nat))
  regionCount : Nat

/-- `Math.max`, written out so that it evaluates by the decidable
rational order (definitionally `max` on `ℚ`). -/
def qmax (a b : ℚ) : ℚ := if a ≤ b then b else a

/-- `Math.min`, written out like `qmax`. -/
def qmin (a b : ℚ) : ℚ := if a ≤ b then a else b

/-- Conversion of cell-grid bounds back to clamped 0–100 percentage
coordinates `(yMin, xMin, yMax, xMax)`. -/
def regionBox (cs w h minR maxR minC maxC : Nat) : ℚ × ℚ × ℚ × ℚ :=
  (qmax 0 (((minR * cs : Nat) : ℚ) / (h : ℚ) * 100),
   qmax 0 (((minC * cs : Nat) : ℚ) / (w : ℚ) * 100),
   qmin 100 ((((maxR + 1) * cs : Nat) : ℚ) / (h : ℚ) * 100),
   qmin 100 ((((maxC + 1) * cs : Nat) : ℚ) / (w : ℚ) * 100))

/-- One iteration of the outer cell scan: on a changed, unvisited cell,
bump the region counter, run a flood fill seeded at the cell, and append
the region with its id and converted bounding box. -/
def scanCell (grid : Nat → Nat) (rows cols cs w h : Nat) (st : ScanState) (rc : Nat × Nat) :
    ScanState :=
  let idx := rc.1 * cols + rc.2
  if grid idx = 1 ∧ st.visited idx = 0 then
    let n := st.regionCount + 1
    let fs0 : FloodState := ⟨[rc], upd st.visited idx 1, rc.1, rc.1, rc.2, rc.2, [rc]⟩
    let fs := floodLoop grid rows cols (rows * cols) fs0
    { visited := fs.visited,
      regions := st.regions ++ [⟨toString n, regionBox cs w h fs.minR fs.maxR fs.minC fs.maxC⟩],
      regionCells := st.regionCells ++ [fs.cells],
      regionCount := n }
  else st

/-- The Region Clusterer's full row-major scan, from the all-zero
`visited` buffer and empty region list. -/
def clusterScan (grid : Nat → Nat) (rows cols cs w h : Nat) : ScanState :=
  (gridCells rows cols).foldl (scanCell grid rows cols cs w h) ⟨fun _ => 0, [], [], 0⟩

/-- The region list produced by the Region Clusterer. -/
def clusterRegions (grid : Nat → Nat) (rows cols cs w h : Nat) : List DiffRegion :=
  (clusterScan grid rows cols cs w h).regions

/-- The pipeline's algorithmic output: the region list and the diff-mask
byte buffer (the annotated JPEG copies are environment-side re-encodes
of the inputs plus these regions and carry no further algorithmic
content). -/
structure DetectResult where
  regions : List DiffRegion
  maskData : Nat → Nat

/-- `detectVisualDifferences` with the three tuning constants exposed as
parameters (`cellSize`, `pixelThreshold`, `cellChangedThreshold`).
Dimensions are taken from the first image; both images are read back
through a canvas of those dimensions. -/
def detectWith (img1 img2 : Image) (cs pt ct : Nat) : DetectResult :=
  let width := img1.width
  let height := img1.height
  let data1 := canvasRead img1 width
  let data2 := canvasRead img2 width
  let cols := (width + cs - 1) / cs
  let rows := (height + cs - 1) / cs
  let md := gridDiff data1 data2 width height cs pt ct
  { regions := clusterRegions md.2 rows cols cs width height, maskData := md.1 }

/-- The source pipeline with its hardcoded constants: `CELL_SIZE = 20`,
pixel threshold `100`, cell threshold `5`.  Total form, used for inputs
of positive dimensions; the canvas API's zero-dimension failure is
carried by `detectVisualDifferencesE` below. -/
def detectVisualDifferences (img1 img2 : Image) : DetectResult :=
  detectWith img1 img2 20 100 5

/-- `ctx.getImageData(0, 0, w, h).data` on the `w × h` canvas holding
`img` drawn at the origin: the call throws an `IndexSizeError`
DOMException when either requested dimension is zero, and otherwise
returns the byte read-back. -/
def getImageData (img : Image) (w h : Nat) : Except String (Nat → Nat) :=
  if w = 0 ∨ h = 0 then Except.error "IndexSizeError" else Except.ok (canvasRead img w)

/-- `detectWith` with the canvas read-backs' failure behaviour made
explicit: each `getImageData` throws `IndexSizeError` when the canvas
frame (sized from the first image) has a zero dimension, so the embedded
pipeline is `Except`-valued; on positive dimensions it agrees with
`detectWith`. -/
def detectWithE (img1 img2 : Image) (cs pt ct : Nat) : Except String DetectResult := do
  let width := img1.width
  let height := img1.height
  let data1 ← getImageData img1 width height
  let data2 ← getImageData img2 width height
  let cols := (width + cs - 1) / cs
  let rows := (height + cs - 1) / cs
  let md := gridDiff data1 data2 width height cs pt ct
  pure { regions := clusterRegions md.2 rows cols cs width height, maskData := md.1 }

/-- The fallible pipeline with the source's hardcoded constants. -/
def detectVisualDifferencesE (img1 img2 : Image) : Except String DetectResult :=
  detectWithE img1 img2 20 100 5

/-! ## Derived forms used by the specification lemmas -/

/-- The differ's per-pixel test, as a Boolean predicate on `(y, x)`. -/
def pixDiff (d1 d2 : Nat → Nat) (w pt : Nat) (q : Nat × Nat) : Bool :=
  decide (colorDist d1 d2 ((q.1 * w + q.2) * 4) > pt)

/-- Byte `k` of the opaque magenta RGBA value `(255, 0, 255, 255)`. -/
def magentaByte (k : Nat) : Nat := if k = 1 then 0 else 255

/-- The mask after the Grid Differ scans one cell (count restarted at 0). -/
def cellMask (d1 d2 : Nat → Nat) (w h cs pt : Nat) (m : Nat → Nat) (rc : Nat × Nat) :
    Nat → Nat :=
  ((cellPixels cs w h rc.1 rc.2).foldl (procPixel d1 d2 w pt) (0, m)).2

/-- The grid after the Grid Differ scans one cell. -/
def cellGrid (d1 d2 : Nat → Nat) (w h cs pt ct cols : Nat) (g : Nat → Nat) (rc : Nat × Nat) :
    Nat → Nat :=
  if (cellPixels cs w h rc.1 rc.2).countP (pixDiff d1 d2 w pt) > ct then
    upd g (rc.1 * cols + rc.2) 1
  else g

/-- The new image as the canvas of the old image's dimensions sees it:
in-frame pixels keep their bytes, out-of-frame positions are transparent
black. -/
def cropTo (img : Image) (w h : Nat) : Image := ⟨w, h, canvasRead img w⟩

/-! ## Basic buffer lemmas -/

theorem upd_self (m : Nat → Nat) (i v : Nat) : upd m i v i = v := if_pos rfl

theorem upd_other (m : Nat → Nat) (i v j : Nat) (h : j ≠ i) : upd m i v j = m j := if_neg h

/-! ## Pointwise characterization of the Grid Differ -/

theorem foldl_procPixel_count (d1 d2 : Nat → Nat) (w pt : Nat) (L : List (Nat × Nat)) :
    ∀ (c : Nat) (m : Nat → Nat),
      (L.foldl (procPixel d1 d2 w pt) (c, m)).1 = c + L.countP (pixDiff d1 d2 w pt) := by
  induction L with
  | nil => intro c m; simp
  | cons q L ih =>
    intro c m
    simp only [List.foldl_cons, List.countP_cons]
    by_cases h : colorDist d1 d2 ((q.1 * w + q.2) * 4) > pt
    · simp only [procPixel, if_pos h, ih, pixDiff, h]
      simp
      omega
    · simp only [procPixel, if_neg h, ih, pixDiff, h]
      simp

theorem foldl_procPixel_mask_count (d1 d2 : Nat → Nat) (w pt : Nat) (L : List (Nat × Nat)) :
    ∀ (c c' : Nat) (m : Nat → Nat),
      (L.foldl (procPixel d1 d2 w pt) (c, m)).2 = (L.foldl (procPixel d1 d2 w pt) (c', m)).2 := by
  induction L with
  | nil => intro c c' m; rfl
  | cons q L ih =>
    intro c c' m
    simp only [List.foldl_cons, procPixel]
    split
    · exact ih (c + 1) (c' + 1) _
    · exact ih c c' _

theorem foldl_procPixel_mask_frame (d1 d2 : Nat → Nat) (w pt : Nat) (L : List (Nat × Nat))
    (pid k : Nat) (hk : k ≤ 3) (hL : ∀ q ∈ L, q.1 * w + q.2 ≠ pid) :
    ∀ st : Nat × (Nat → Nat),
      (L.foldl (procPixel d1 d2 w pt) st).2 (pid * 4 + k) = st.2 (pid * 4 + k) := by
  induction L with
  | nil => intro st; rfl
  | cons q L ih =>
    intro st
    have hq : q.1 * w + q.2 ≠ pid := hL q (List.mem_cons_self q L)
    have hrest : ∀ p ∈ L, p.1 * w + p.2 ≠ pid := fun p hp => hL p (List.mem_cons_of_mem q hp)
    simp only [List.foldl_cons]
    rw [ih hrest]
    simp only [procPixel]
    split
    · simp only
      rw [upd_other _ _ _ _ (by omega), upd_other _ _ _ _ (by omega),
        upd_other _ _ _ _ (by omega), upd_other _ _ _ _ (by omega)]
    · simp only
      rw [upd_other _ _ _ _ (by omega)]

theorem procPixel_mask_self (d1 d2 : Nat → Nat) (w pt : Nat) (st : Nat × (Nat → Nat))
    (y x k : Nat) (hk : k ≤ 3) :
    (procPixel d1 d2 w pt st (y, x)).2 ((y * w + x) * 4 + k) =
      if colorDist d1 d2 ((y * w + x) * 4) > pt then magentaByte k
      else if k = 3 then 0 else st.2 ((y * w + x) * 4 + k) := by
  simp only [procPixel]
  split
  · simp only
    interval_cases k
    · rw [upd_other _ _ _ _ (by omega), upd_other _ _ _ _ (by omega),
        upd_other _ _ _ _ (by omega)]
      simp [upd_self, magentaByte]
    · rw [upd_other _ _ _ _ (by omega), upd_other _ _ _ _ (by omega)]
      rw [show (y * w + x) * 4 + 1 = (y * w + x) * 4 + 1 from rfl, upd_self]
      simp [magentaByte]
    · rw [upd_other _ _ _ _ (by omega), upd_self]
      simp [magentaByte]
    · rw [upd_self]
      simp [magentaByte]
  · simp only
    interval_cases k
    · rw [upd_other _ _ _ _ (by omega)]; simp
    · rw [upd_other _ _ _ _ (by omega)]; simp
    · rw [upd_other _ _ _ _ (by omega)]; simp
    · rw [upd_self]; simp

theorem foldl_procPixel_mask_value (d1 d2 : Nat → Nat) (w pt : Nat)
    (l1 l2 : List (Nat × Nat)) (y x k : Nat) (hk : k ≤ 3)
    (h1 : ∀ q ∈ l1, q.1 * w + q.2 ≠ y * w + x) (h2 : ∀ q ∈ l2, q.1 * w + q.2 ≠ y * w + x)
    (st : Nat × (Nat → Nat)) :
    ((l1 ++ (y, x) :: l2).foldl (procPixel d1 d2 w pt) st).2 ((y * w + x) * 4 + k) =
      if colorDist d1 d2 ((y * w + x) * 4) > pt then magentaByte k
      else if k = 3 then 0 else st.2 ((y * w + x) * 4 + k) := by
  rw [List.foldl_append]
  simp only [List.foldl_cons]
  rw [foldl_procPixel_mask_frame d1 d2 w pt l2 (y * w + x) k hk h2]
  rw [procPixel_mask_self d1 d2 w pt _ y x k hk]
  split
  · rfl
  · split
    · rfl
    · exact foldl_procPixel_mask_frame d1 d2 w pt l1 (y * w + x) k hk h1 st

theorem foldl_pair {α β γ : Type _} (f : α × β → γ → α × β) (f1 : α → γ → α) (f2 : β → γ → β)
    (hf : ∀ st x, f st x = (f1 st.1 x, f2 st.2 x)) (L : List γ) :
    ∀ (a : α) (b : β), L.foldl f (a, b) = (L.foldl f1 a, L.foldl f2 b) := by
  induction L with
  | nil => intro a b; rfl
  | cons q L ih => intro a b; rw [List.foldl_cons, List.foldl_cons, List.foldl_cons, hf]; exact ih _ _

theorem procCell_eq (d1 d2 : Nat → Nat) (w h cs pt ct cols : Nat) (st : (Nat → Nat) × (Nat → Nat))
    (rc : Nat × Nat) :
    procCell d1 d2 w h cs pt ct cols st rc =
      (cellMask d1 d2 w h cs pt st.1 rc, cellGrid d1 d2 w h cs pt ct cols st.2 rc) := by
  simp only [procCell, cellMask, cellGrid, foldl_procPixel_count, Nat.zero_add]

theorem gridDiff_eq (d1 d2 : Nat → Nat) (w h cs pt ct : Nat) :
    gridDiff d1 d2 w h cs pt ct =
      ((gridCells ((h + cs - 1) / cs) ((w + cs - 1) / cs)).foldl
          (cellMask d1 d2 w h cs pt) (fun _ => 0),
       (gridCells ((h + cs - 1) / cs) ((w + cs - 1) / cs)).foldl
          (cellGrid d1 d2 w h cs pt ct ((w + cs - 1) / cs)) (fun _ => 0)) := by
  unfold gridDiff
  exact foldl_pair _ _ _ (procCell_eq d1 d2 w h cs pt ct _) _ _ _

theorem mem_gridCells {rows cols : Nat} {rc : Nat × Nat} :
    rc ∈ gridCells rows cols ↔ rc.1 < rows ∧ rc.2 < cols := by
  obtain ⟨r, c⟩ := rc
  simp only [gridCells, List.mem_flatMap, List.mem_map, List.mem_range, Prod.mk.injEq]
  constructor
  · rintro ⟨a, ha, b, hb, rfl, rfl⟩
    exact ⟨ha, hb⟩
  · rintro ⟨h1, h2⟩
    exact ⟨r, h1, c, h2, rfl, rfl⟩

theorem nodup_gridCells (rows cols : Nat) : (gridCells rows cols).Nodup := by
  unfold gridCells
  rw [List.nodup_flatMap]
  constructor
  · intro r _
    exact (List.nodup_range cols).map (fun a b h => (Prod.ext_iff.mp h).2)
  · refine (List.nodup_range rows).imp ?_
    intro a b hab p hpa hpb
    simp only [List.mem_map, List.mem_range] at hpa hpb
    obtain ⟨c1, _, h1⟩ := hpa
    obtain ⟨c2, _, h2⟩ := hpb
    exact hab (by rw [← h1] at h2; exact ((Prod.mk.injEq _ _ _ _).mp h2).1.symm)

theorem mem_cellPixels {cs w h r c : Nat} {q : Nat × Nat} :
    q ∈ cellPixels cs w h r c ↔
      r * cs ≤ q.1 ∧ q.1 < min (r * cs + cs) h ∧ c * cs ≤ q.2 ∧ q.2 < min (c * cs + cs) w := by
  obtain ⟨y, x⟩ := q
  simp only [cellPixels, List.mem_flatMap, List.mem_map, List.mem_range'_1, Prod.mk.injEq]
  constructor
  · rintro ⟨a, ha, b, hb, rfl, rfl⟩
    omega
  · rintro ⟨h1, h2, h3, h4⟩
    exact ⟨y, by omega, x, by omega, rfl, rfl⟩

theorem nodup_cellPixels (cs w h r c : Nat) : (cellPixels cs w h r c).Nodup := by
  unfold cellPixels
  rw [List.nodup_flatMap]
  constructor
  · intro y _
    exact (List.nodup_range' _ _).map (fun a b hab => ((Prod.mk.injEq _ _ _ _).mp hab).2)
  · refine (List.nodup_range' _ _).imp ?_
    intro a b hab p hpa hpb
    simp only [List.mem_map] at hpa hpb
    obtain ⟨c1, _, h1⟩ := hpa
    obtain ⟨c2, _, h2⟩ := hpb
    exact hab (by rw [← h1] at h2; exact ((Prod.mk.injEq _ _ _ _).mp h2).1.symm)

theorem cellIdx_inj {cols r1 c1 r2 c2 : Nat} (h1 : c1 < cols) (h2 : c2 < cols)
    (h : r1 * cols + c1 = r2 * cols + c2) : r1 = r2 ∧ c1 = c2 := by
  have hpos : 0 < cols := by omega
  have e1 : (r1 * cols + c1) / cols = r1 := by
    rw [Nat.mul_comm r1 cols, Nat.mul_add_div hpos, Nat.div_eq_of_lt h1, Nat.add_zero]
  have e2 : (r2 * cols + c2) / cols = r2 := by
    rw [Nat.mul_comm r2 cols, Nat.mul_add_div hpos, Nat.div_eq_of_lt h2, Nat.add_zero]
  have : r1 = r2 := by rw [← e1, ← e2, h]
  subst this
  exact ⟨rfl, by omega⟩

theorem div_lt_ceil {a b cs : Nat} (hcs : 0 < cs) (h : a < b) : a / cs < (b + cs - 1) / cs := by
  have h1 : a / cs ≤ (b - 1) / cs := Nat.div_le_div_right (by omega)
  have h2 : (b - 1 + cs) / cs = (b - 1) / cs + 1 := Nat.add_div_right _ hcs
  rw [show b + cs - 1 = b - 1 + cs by omega, h2]
  omega

theorem cell_of_pixel_mem {cs w h y x : Nat} (hcs : 0 < cs) (hy : y < h) (hx : x < w) :
    (y, x) ∈ cellPixels cs w h (y / cs) (x / cs) := by
  rw [mem_cellPixels]
  have q1 := Nat.div_add_mod y cs
  have m1 := Nat.mod_lt y hcs
  have q2 := Nat.div_add_mod x cs
  have m2 := Nat.mod_lt x hcs
  rw [Nat.mul_comm (y / cs) cs, Nat.mul_comm (x / cs) cs]
  simp only
  omega

theorem pixel_cell_unique {cs w h r c : Nat} {q : Nat × Nat}
    (hcs : 0 < cs) (hq : q ∈ cellPixels cs w h r c) : r = q.1 / cs ∧ c = q.2 / cs := by
  rw [mem_cellPixels] at hq
  have q1 := Nat.div_add_mod q.1 cs
  have m1 := Nat.mod_lt q.1 hcs
  have q2 := Nat.div_add_mod q.2 cs
  have m2 := Nat.mod_lt q.2 hcs
  have hy1 : r * cs ≤ q.1 := hq.1
  have hy2 : q.1 < r * cs + cs := by have := hq.2.1; omega
  have hx1 : c * cs ≤ q.2 := hq.2.2.1
  have hx2 : q.2 < c * cs + cs := by have := hq.2.2.2; omega
  constructor
  · have hle : r ≤ q.1 / cs := by
      by_contra hcon
      push_neg at hcon
      have : q.1 / cs + 1 ≤ r := hcon
      have : (q.1 / cs + 1) * cs ≤ r * cs := Nat.mul_le_mul_right cs this
      rw [Nat.add_mul, Nat.one_mul] at this
      rw [Nat.mul_comm (q.1 / cs) cs] at this
      omega
    have hge : q.1 / cs ≤ r := by
      by_contra hcon
      push_neg at hcon
      have : r + 1 ≤ q.1 / cs := hcon
      have : (r + 1) * cs ≤ (q.1 / cs) * cs := Nat.mul_le_mul_right cs this
      rw [Nat.add_mul, Nat.one_mul] at this
      have hfl : (q.1 / cs) * cs ≤ q.1 := Nat.div_mul_le_self _ _
      omega
    omega
  · have hle : c ≤ q.2 / cs := by
      by_contra hcon
      push_neg at hcon
      have : q.2 / cs + 1 ≤ c := hcon
      have : (q.2 / cs + 1) * cs ≤ c * cs := Nat.mul_le_mul_right cs this
      rw [Nat.add_mul, Nat.one_mul] at this
      rw [Nat.mul_comm (q.2 / cs) cs] at this
      omega
    have hge : q.2 / cs ≤ c := by
      by_contra hcon
      push_neg at hcon
      have : c + 1 ≤ q.2 / cs := hcon
      have : (c + 1) * cs ≤ (q.2 / cs) * cs := Nat.mul_le_mul_right cs this
      rw [Nat.add_mul, Nat.one_mul] at this
      have hfl : (q.2 / cs) * cs ≤ q.2 := Nat.div_mul_le_self _ _
      omega
    omega

theorem cellGrid_frame (d1 d2 : Nat → Nat) (w h cs pt ct cols : Nat) (g : Nat → Nat)
    (rc : Nat × Nat) (j : Nat) (hj : j ≠ rc.1 * cols + rc.2) :
    cellGrid d1 d2 w h cs pt ct cols g rc j = g j := by
  unfold cellGrid
  split
  · exact upd_other _ _ _ _ hj
  · rfl

theorem foldl_cellGrid_frame (d1 d2 : Nat → Nat) (w h cs pt ct cols : Nat)
    (L : List (Nat × Nat)) (j : Nat) (hL : ∀ rc ∈ L, j ≠ rc.1 * cols + rc.2) :
    ∀ g : Nat → Nat, (L.foldl (cellGrid d1 d2 w h cs pt ct cols) g) j = g j := by
  induction L with
  | nil => intro g; rfl
  | cons q L ih =>
    intro g
    rw [List.foldl_cons, ih (fun rc hrc => hL rc (List.mem_cons_of_mem q hrc)),
      cellGrid_frame _ _ _ _ _ _ _ _ _ _ _ (hL q (List.mem_cons_self q L))]

theorem gridDiff_grid_char (d1 d2 : Nat → Nat) (w h cs pt ct r c : Nat)
    (hr : r < (h + cs - 1) / cs) (hc : c < (w + cs - 1) / cs) :
    (gridDiff d1 d2 w h cs pt ct).2 (r * ((w + cs - 1) / cs) + c) =
      if (cellPixels cs w h r c).countP (pixDiff d1 d2 w pt) > ct then 1 else 0 := by
  rw [gridDiff_eq]
  simp only
  have hmem : (r, c) ∈ gridCells ((h + cs - 1) / cs) ((w + cs - 1) / cs) :=
    mem_gridCells.mpr ⟨hr, hc⟩
  obtain ⟨l1, l2, hdec⟩ := List.append_of_mem hmem
  have hnd := nodup_gridCells ((h + cs - 1) / cs) ((w + cs - 1) / cs)
  rw [hdec] at hnd
  obtain ⟨hnd1, hnd2, hdisj⟩ := List.nodup_append.mp hnd
  have hne2 : (r, c) ∉ l2 := (List.nodup_cons.mp hnd2).1
  have hmemof : ∀ rc : Nat × Nat, rc ∈ l1 ∨ rc ∈ l2 →
      rc ∈ gridCells ((h + cs - 1) / cs) ((w + cs - 1) / cs) := by
    intro rc hrc
    rw [hdec]
    rcases hrc with hrc | hrc
    · exact List.mem_append_left _ hrc
    · exact List.mem_append_right _ (List.mem_cons_of_mem _ hrc)
  have hframe : ∀ (S : List (Nat × Nat)), (∀ rc ∈ S, rc ∈ l1 ∨ rc ∈ l2) →
      (∀ rc ∈ S, rc ≠ (r, c)) →
      ∀ rc ∈ S, r * ((w + cs - 1) / cs) + c ≠ rc.1 * ((w + cs - 1) / cs) + rc.2 := by
    intro S hsub hneq rc hrc heq
    have hrc2 : rc.2 < (w + cs - 1) / cs := (mem_gridCells.mp (hmemof rc (hsub rc hrc))).2
    obtain ⟨e1, e2⟩ := cellIdx_inj hc hrc2 heq
    exact hneq rc hrc (by
      obtain ⟨a, b⟩ := rc
      simp only at e1 e2
      simp [e1, e2])
  rw [hdec, List.foldl_append, List.foldl_cons]
  rw [foldl_cellGrid_frame _ _ _ _ _ _ _ _ l2 _
    (hframe l2 (fun rc hrc => Or.inr hrc) (fun rc hrc heq => hne2 (heq ▸ hrc)))]
  by_cases hcount : (cellPixels cs w h r c).countP (pixDiff d1 d2 w pt) > ct
  · simp only [cellGrid, hcount, if_true, if_pos hcount]
    exact upd_self _ _ _
  · simp only [cellGrid, hcount, if_false, if_neg hcount]
    rw [foldl_cellGrid_frame _ _ _ _ _ _ _ _ l1 _
      (hframe l1 (fun rc hrc => Or.inl hrc)
        (fun rc hrc heq => (hdisj (heq ▸ hrc)) (List.mem_cons_self _ _)))]

theorem cellMask_value (d1 d2 : Nat → Nat) (w h cs pt : Nat) (m : Nat → Nat) (y x k : Nat)
    (hcs : 0 < cs) (hk : k ≤ 3) (hx : x < w) (hy : y < h) :
    cellMask d1 d2 w h cs pt m (y / cs, x / cs) ((y * w + x) * 4 + k) =
      if colorDist d1 d2 ((y * w + x) * 4) > pt then magentaByte k
      else if k = 3 then 0 else m ((y * w + x) * 4 + k) := by
  unfold cellMask
  obtain ⟨p1, p2, hdec⟩ := List.append_of_mem (cell_of_pixel_mem hcs hy hx)
  have hnd := nodup_cellPixels cs w h (y / cs) (x / cs)
  rw [hdec] at hnd
  obtain ⟨hnd1, hnd2, hdisj⟩ := List.nodup_append.mp hnd
  have hne2 : (y, x) ∉ p2 := (List.nodup_cons.mp hnd2).1
  have hid : ∀ q : Nat × Nat, (q ∈ p1 ∨ q ∈ p2) → q.1 * w + q.2 ≠ y * w + x := by
    intro q hq heq
    have hqmem : q ∈ cellPixels cs w h (y / cs) (x / cs) := by
      rw [hdec]
      rcases hq with hq | hq
      · exact List.mem_append_left _ hq
      · exact List.mem_append_right _ (List.mem_cons_of_mem _ hq)
    have hq2 : q.2 < w := by
      have := (mem_cellPixels.mp hqmem).2.2.2
      omega
    obtain ⟨e1, e2⟩ := cellIdx_inj hq2 hx heq
    have hqyx : q = (y, x) := by
      obtain ⟨a, b⟩ := q
      simp only at e1 e2
      simp [e1, e2]
    rcases hq with hq | hq
    · exact (hdisj (hqyx ▸ hq)) (List.mem_cons_self _ _)
    · exact hne2 (hqyx ▸ hq)
  simp only [hdec]
  exact foldl_procPixel_mask_value d1 d2 w pt p1 p2 y x k hk
    (fun q hq => hid q (Or.inl hq)) (fun q hq => hid q (Or.inr hq)) _

theorem cellMask_frame (d1 d2 : Nat → Nat) (w h cs pt : Nat) (m : Nat → Nat)
    (rc : Nat × Nat) (y x k : Nat) (hcs : 0 < cs) (hk : k ≤ 3) (hx : x < w)
    (hother : rc ≠ (y / cs, x / cs)) :
    cellMask d1 d2 w h cs pt m rc ((y * w + x) * 4 + k) = m ((y * w + x) * 4 + k) := by
  unfold cellMask
  apply foldl_procPixel_mask_frame d1 d2 w pt _ _ k hk
  intro q hq heq
  have hq2 : q.2 < w := by
    have := (mem_cellPixels.mp hq).2.2.2
    omega
  obtain ⟨e1, e2⟩ := cellIdx_inj hq2 hx heq
  obtain ⟨u1, u2⟩ := pixel_cell_unique hcs hq
  apply hother
  obtain ⟨a, b⟩ := rc
  obtain ⟨qa, qb⟩ := q
  simp only at e1 e2 u1 u2
  simp [u1, u2, e1, e2]

theorem foldl_cellMask_frame (d1 d2 : Nat → Nat) (w h cs pt : Nat)
    (L : List (Nat × Nat)) (y x k : Nat) (hcs : 0 < cs) (hk : k ≤ 3) (hx : x < w)
    (hL : ∀ rc ∈ L, rc ≠ (y / cs, x / cs)) :
    ∀ m : Nat → Nat,
      (L.foldl (cellMask d1 d2 w h cs pt) m) ((y * w + x) * 4 + k) = m ((y * w + x) * 4 + k) := by
  induction L with
  | nil => intro m; rfl
  | cons q L ih =>
    intro m
    rw [List.foldl_cons, ih (fun rc hrc => hL rc (List.mem_cons_of_mem q hrc)),
      cellMask_frame d1 d2 w h cs pt _ _ _ _ _ hcs hk hx (hL q (List.mem_cons_self q L))]

theorem gridDiff_mask_char (d1 d2 : Nat → Nat) (w h cs pt ct x y k : Nat)
    (hcs : 0 < cs) (hx : x < w) (hy : y < h) (hk : k ≤ 3) :
    (gridDiff d1 d2 w h cs pt ct).1 ((y * w + x) * 4 + k) =
      if colorDist d1 d2 ((y * w + x) * 4) > pt then magentaByte k else 0 := by
  rw [gridDiff_eq]
  simp only
  have hmem : (y / cs, x / cs) ∈ gridCells ((h + cs - 1) / cs) ((w + cs - 1) / cs) :=
    mem_gridCells.mpr ⟨div_lt_ceil hcs hy, div_lt_ceil hcs hx⟩
  obtain ⟨l1, l2, hdec⟩ := List.append_of_mem hmem
  have hnd := nodup_gridCells ((h + cs - 1) / cs) ((w + cs - 1) / cs)
  rw [hdec] at hnd
  obtain ⟨hnd1, hnd2, hdisj⟩ := List.nodup_append.mp hnd
  have hne2 : (y / cs, x / cs) ∉ l2 := (List.nodup_cons.mp hnd2).1
  rw [hdec, List.foldl_append, List.foldl_cons]
  rw [foldl_cellMask_frame d1 d2 w h cs pt l2 y x k hcs hk hx
    (fun rc hrc heq => hne2 (heq ▸ hrc))]
  rw [cellMask_value d1 d2 w h cs pt _ y x k hcs hk hx hy]
  split
  · rfl
  · rw [foldl_cellMask_frame d1 d2 w h cs pt l1 y x k hcs hk hx
      (fun rc hrc heq => (hdisj (heq ▸ hrc)) (List.mem_cons_self _ _))]
    split <;> rfl

/-! ## Canvas read-back bridges -/

theorem canvasRead_in_frame (img : Image) (w y x k : Nat) (hx : x < w) (hk : k < 4) :
    canvasRead img w ((y * w + x) * 4 + k) =
      if x < img.width ∧ y < img.height then img.data ((y * img.width + x) * 4 + k) else 0 := by
  have hw : 0 < w := by omega
  unfold canvasRead
  simp only
  have e0 : ((y * w + x) * 4 + k) % 4 = k := by omega
  have e1 : ((y * w + x) * 4 + k) / 4 = y * w + x := by omega
  rw [e0, e1]
  have e2 : (y * w + x) % w = x := by
    rw [Nat.mul_comm y w, Nat.mul_add_mod]
    exact Nat.mod_eq_of_lt hx
  have e3 : (y * w + x) / w = y := by
    rw [Nat.mul_comm y w, Nat.mul_add_div hw, Nat.div_eq_of_lt hx, Nat.add_zero]
  rw [e2, e3]

theorem canvasRead_eq_data (img : Image) (w h y x k : Nat) (hw : img.width = w)
    (hh : img.height = h) (hx : x < w) (hy : y < h) (hk : k < 4) :
    canvasRead img w ((y * w + x) * 4 + k) = img.data ((y * w + x) * 4 + k) := by
  rw [canvasRead_in_frame img w y x k hx hk, if_pos ⟨hw ▸ hx, hh ▸ hy⟩, hw]

theorem colorDist_self (d : Nat → Nat) (i : Nat) : colorDist d d i = 0 := by
  simp [colorDist]

theorem colorDist_canvasRead (img1 img2 : Image) (w h y x : Nat)
    (h1w : img1.width = w) (h1h : img1.height = h)
    (h2w : img2.width = w) (h2h : img2.height = h) (hx : x < w) (hy : y < h) :
    colorDist (canvasRead img1 w) (canvasRead img2 w) ((y * w + x) * 4) =
      colorDist img1.data img2.data ((y * w + x) * 4) := by
  have e1 := canvasRead_eq_data img1 w h y x 0 h1w h1h hx hy (by omega)
  have e2 := canvasRead_eq_data img2 w h y x 0 h2w h2h hx hy (by omega)
  rw [Nat.add_zero] at e1 e2
  unfold colorDist
  rw [e1, e2,
    canvasRead_eq_data img1 w h y x 1 h1w h1h hx hy (by omega),
    canvasRead_eq_data img2 w h y x 1 h2w h2h hx hy (by omega),
    canvasRead_eq_data img1 w h y x 2 h1w h1h hx hy (by omega),
    canvasRead_eq_data img2 w h y x 2 h2w h2h hx hy (by omega)]

/-! ## Congruence of the differ in its second buffer -/

theorem procPixel_congr (d1 d2 d2' : Nat → Nat) (w pt : Nat) (q : Nat × Nat)
    (hq : ∀ t, t ≤ 2 → d2 ((q.1 * w + q.2) * 4 + t) = d2' ((q.1 * w + q.2) * 4 + t)) :
    ∀ st, procPixel d1 d2 w pt st q = procPixel d1 d2' w pt st q := by
  intro st
  have h0 := hq 0 (by omega)
  rw [Nat.add_zero] at h0
  have hcd : colorDist d1 d2 ((q.1 * w + q.2) * 4) = colorDist d1 d2' ((q.1 * w + q.2) * 4) := by
    unfold colorDist
    rw [h0, hq 1 (by omega), hq 2 (by omega)]
  unfold procPixel
  simp only [hcd]

theorem foldl_congr_fn {α β : Type _} (f g : α → β → α) (L : List β)
    (h : ∀ (a : α) (x : β), x ∈ L → f a x = g a x) : ∀ a, L.foldl f a = L.foldl g a := by
  induction L with
  | nil => intro a; rfl
  | cons q L ih =>
    intro a
    rw [List.foldl_cons, List.foldl_cons, h a q (List.mem_cons_self q L)]
    exact ih (fun a x hx => h a x (List.mem_cons_of_mem q hx)) _

theorem procCell_congr (d1 d2 d2' : Nat → Nat) (w h cs pt ct cols : Nat)
    (hagree : ∀ y x t : Nat, y < h → x < w → t ≤ 2 →
      d2 ((y * w + x) * 4 + t) = d2' ((y * w + x) * 4 + t)) :
    ∀ st rc, procCell d1 d2 w h cs pt ct cols st rc = procCell d1 d2' w h cs pt ct cols st rc := by
  intro st rc
  unfold procCell
  rw [foldl_congr_fn (procPixel d1 d2 w pt) (procPixel d1 d2' w pt) _ ?_ (0, st.1)]
  intro a q hq
  have hmem := mem_cellPixels.mp hq
  have hyq : q.1 < h := by omega
  have hxq : q.2 < w := by omega
  exact procPixel_congr d1 d2 d2' w pt q (fun t ht => hagree q.1 q.2 t hyq hxq ht) a

theorem gridDiff_congr (d1 d2 d2' : Nat → Nat) (w h cs pt ct : Nat)
    (hagree : ∀ y x t : Nat, y < h → x < w → t ≤ 2 →
      d2 ((y * w + x) * 4 + t) = d2' ((y * w + x) * 4 + t)) :
    gridDiff d1 d2 w h cs pt ct = gridDiff d1 d2' w h cs pt ct := by
  unfold gridDiff
  exact foldl_congr_fn _ _ _
    (fun st rc _ => procCell_congr d1 d2 d2' w h cs pt ct _ hagree st rc) _

/-! ## Degenerate and monotone grid lemmas -/

theorem foldl_cellGrid_id (d1 d2 : Nat → Nat) (w h cs pt ct cols : Nat)
    (hz : ∀ rc : Nat × Nat, (cellPixels cs w h rc.1 rc.2).countP (pixDiff d1 d2 w pt) ≤ ct)
    (L : List (Nat × Nat)) : ∀ g, L.foldl (cellGrid d1 d2 w h cs pt ct cols) g = g := by
  induction L with
  | nil => intro g; rfl
  | cons q L ih =>
    intro g
    rw [List.foldl_cons]
    have hstep : cellGrid d1 d2 w h cs pt ct cols g q = g := by
      unfold cellGrid
      rw [if_neg (by have := hz q; omega)]
    rw [hstep]
    exact ih g

theorem foldl_scanCell_zero (rows cols cs w h : Nat) (L : List (Nat × Nat)) :
    ∀ st, L.foldl (scanCell (fun _ => 0) rows cols cs w h) st = st := by
  induction L with
  | nil => intro st; rfl
  | cons q L ih =>
    intro st
    rw [List.foldl_cons]
    have hstep : scanCell (fun _ => 0) rows cols cs w h st q = st := by
      unfold scanCell
      exact if_neg (by simp)
    rw [hstep]
    exact ih st

theorem gridCells_zero (rows cols : Nat) (h : rows = 0 ∨ cols = 0) : gridCells rows cols = [] := by
  rw [List.eq_nil_iff_forall_not_mem]
  intro rc hrc
  have := mem_gridCells.mp hrc
  omega

theorem foldl_cellGrid_mono (d1 d2 : Nat → Nat) (w h cs pt t1 t2 cols : Nat) (ht : t1 ≤ t2)
    (L : List (Nat × Nat)) :
    ∀ g1 g2 : Nat → Nat, (∀ j, g2 j = 1 → g1 j = 1) →
      ∀ j, (L.foldl (cellGrid d1 d2 w h cs pt t2 cols) g2) j = 1 →
        (L.foldl (cellGrid d1 d2 w h cs pt t1 cols) g1) j = 1 := by
  induction L with
  | nil => intro g1 g2 himp j; exact himp j
  | cons q L ih =>
    intro g1 g2 himp j
    rw [List.foldl_cons, List.foldl_cons]
    apply ih
    intro j' hj'
    unfold cellGrid at hj' ⊢
    by_cases hc2 : (cellPixels cs w h q.1 q.2).countP (pixDiff d1 d2 w pt) > t2
    · rw [if_pos hc2] at hj'
      rw [if_pos (by omega : (cellPixels cs w h q.1 q.2).countP (pixDiff d1 d2 w pt) > t1)]
      by_cases hjq : j' = q.1 * cols + q.2
      · rw [hjq, upd_self]
      · rw [upd_other _ _ _ _ hjq] at hj'
        rw [upd_other _ _ _ _ hjq]
        exact himp j' hj'
    · rw [if_neg hc2] at hj'
      by_cases hc1 : (cellPixels cs w h q.1 q.2).countP (pixDiff d1 d2 w pt) > t1
      · rw [if_pos hc1]
        by_cases hjq : j' = q.1 * cols + q.2
        · rw [hjq, upd_self]
        · rw [upd_other _ _ _ _ hjq]
          exact himp j' hj'
      · rw [if_neg hc1]
        exact himp j' hj'

/-! ## Flood-fill bound invariants and box well-formedness -/

/-- Invariant of a flood fill: the running bounds are ordered and inside
the grid, and every queued cell is inside the grid. -/
def FloodBounds (rows cols : Nat) (st : FloodState) : Prop :=
  st.minR ≤ st.maxR ∧ st.maxR < rows ∧ st.minC ≤ st.maxC ∧ st.maxC < cols ∧
    ∀ q ∈ st.queue, q.1 < rows ∧ q.2 < cols

theorem tryVisit_bounds (grid : Nat → Nat) (rows cols : Nat) (st : FloodState) (n : Int × Int)
    (hb : FloodBounds rows cols st) : FloodBounds rows cols (tryVisit grid rows cols st n) := by
  unfold tryVisit
  split
  case isTrue hcond =>
    dsimp only
    split
    case isTrue =>
      obtain ⟨h1, h2, h3, h4, h5⟩ := hb
      refine ⟨h1, h2, h3, h4, ?_⟩
      intro q hq
      simp only [List.mem_append, List.mem_singleton] at hq
      rcases hq with hq | hq
      · exact h5 q hq
      · subst hq
        simp only
        omega
    case isFalse => exact hb
  case isFalse => exact hb

theorem foldl_tryVisit_bounds (grid : Nat → Nat) (rows cols : Nat) (L : List (Int × Int)) :
    ∀ st, FloodBounds rows cols st → FloodBounds rows cols (L.foldl (tryVisit grid rows cols) st) := by
  induction L with
  | nil => intro st hb; exact hb
  | cons n L ih =>
    intro st hb
    rw [List.foldl_cons]
    exact ih _ (tryVisit_bounds grid rows cols st n hb)

theorem floodStep_bounds (grid : Nat → Nat) (rows cols : Nat) (st : FloodState)
    (hb : FloodBounds rows cols st) : FloodBounds rows cols (floodStep grid rows cols st) := by
  unfold floodStep
  split
  case h_1 => exact hb
  case h_2 curR curC rest heq =>
    apply foldl_tryVisit_bounds
    obtain ⟨h1, h2, h3, h4, h5⟩ := hb
    have hcur := h5 (curR, curC) (by rw [heq]; exact List.mem_cons_self _ _)
    refine ⟨?_, ?_, ?_, ?_, ?_⟩
    · simp only; omega
    · simp only; omega
    · simp only; omega
    · simp only; omega
    · intro q hq
      exact h5 q (by rw [heq]; exact List.mem_cons_of_mem _ hq)

theorem floodLoop_bounds (grid : Nat → Nat) (rows cols : Nat) (fuel : Nat) :
    ∀ st, FloodBounds rows cols st → FloodBounds rows cols (floodLoop grid rows cols fuel st) := by
  induction fuel with
  | zero => intro st hb; exact hb
  | succ fuel ih =>
    intro st hb
    unfold floodLoop
    split
    · exact hb
    · exact ih _ (floodStep_bounds grid rows cols st hb)

theorem boxSide_wf (cs n lo hi : Nat) (hcs : 0 < cs) (hlohi : lo ≤ hi)
    (hhi : hi < (n + cs - 1) / cs) :
    0 ≤ qmax 0 (((lo * cs : Nat) : ℚ) / (n : ℚ) * 100) ∧
    qmax 0 (((lo * cs : Nat) : ℚ) / (n : ℚ) * 100) ≤
      qmin 100 ((((hi + 1) * cs : Nat) : ℚ) / (n : ℚ) * 100) ∧
    qmin 100 ((((hi + 1) * cs : Nat) : ℚ) / (n : ℚ) * 100) ≤ 100 := by
  have hn : 1 ≤ n := by
    by_contra hcon
    push_neg at hcon
    have hn0 : n = 0 := by omega
    rw [hn0] at hhi
    have : (0 + cs - 1) / cs = 0 := Nat.div_eq_of_lt (by omega)
    omega
  have hlocs : lo * cs ≤ n := by
    have hlt : hi < (n - 1 + cs) / cs := by
      rw [show n - 1 + cs = n + cs - 1 by omega]
      exact hhi
    rw [Nat.add_div_right _ hcs] at hlt
    have hle : lo ≤ (n - 1) / cs := by omega
    have hd1 : ((n - 1) / cs) * cs ≤ n - 1 := Nat.div_mul_le_self _ _
    have hd2 : lo * cs ≤ ((n - 1) / cs) * cs := Nat.mul_le_mul_right cs hle
    omega
  have hnq : (0 : ℚ) < (n : ℚ) := by exact_mod_cast hn
  have ha0 : (0 : ℚ) ≤ ((lo * cs : Nat) : ℚ) / (n : ℚ) * 100 := by positivity
  have hab : ((lo * cs : Nat) : ℚ) / (n : ℚ) * 100 ≤ (((hi + 1) * cs : Nat) : ℚ) / (n : ℚ) * 100 := by
    have hmono : ((lo * cs : Nat) : ℚ) ≤ (((hi + 1) * cs : Nat) : ℚ) := by
      exact_mod_cast Nat.mul_le_mul_right cs (by omega)
    exact mul_le_mul_of_nonneg_right ((div_le_div_iff_of_pos_right hnq).mpr hmono) (by norm_num)
  have ha100 : ((lo * cs : Nat) : ℚ) / (n : ℚ) * 100 ≤ 100 := by
    have hle1 : ((lo * cs : Nat) : ℚ) / (n : ℚ) ≤ 1 := by
      rw [div_le_one hnq]
      exact_mod_cast hlocs
    calc ((lo * cs : Nat) : ℚ) / (n : ℚ) * 100 ≤ 1 * 100 :=
          mul_le_mul_of_nonneg_right hle1 (by norm_num)
    _ = 100 := by norm_num
  refine ⟨?_, ?_, ?_⟩
  · unfold qmax
    rw [if_pos ha0]
    exact ha0
  · have hqa : qmax 0 (((lo * cs : Nat) : ℚ) / (n : ℚ) * 100) =
        ((lo * cs : Nat) : ℚ) / (n : ℚ) * 100 := if_pos ha0
    rw [hqa]
    unfold qmin
    split
    case isTrue => exact ha100
    case isFalse => exact hab
  · unfold qmin
    split
    case isTrue => exact le_refl 100
    case isFalse hnb => linarith

/-- Well-formedness of a region's box: ordered coordinate pairs inside
`[0, 100]`. -/
def boxWf (reg : DiffRegion) : Prop :=
  0 ≤ reg.boundingBox.1 ∧ reg.boundingBox.1 ≤ reg.boundingBox.2.2.1 ∧
    reg.boundingBox.2.2.1 ≤ 100 ∧ 0 ≤ reg.boundingBox.2.1 ∧
    reg.boundingBox.2.1 ≤ reg.boundingBox.2.2.2 ∧ reg.boundingBox.2.2.2 ≤ 100

theorem regionBox_wf (cs w h minR maxR minC maxC : Nat) (hcs : 0 < cs)
    (h1 : minR ≤ maxR) (h2 : maxR < (h + cs - 1) / cs)
    (h3 : minC ≤ maxC) (h4 : maxC < (w + cs - 1) / cs) :
    boxWf ⟨"", regionBox cs w h minR maxR minC maxC⟩ := by
  obtain ⟨hy1, hy2, hy3⟩ := boxSide_wf cs h minR maxR hcs h1 h2
  obtain ⟨hx1, hx2, hx3⟩ := boxSide_wf cs w minC maxC hcs h3 h4
  exact ⟨hy1, hy2, hy3, hx1, hx2, hx3⟩

theorem boxWf_id_irrel (s1 s2 : String) (b : ℚ × ℚ × ℚ × ℚ) (h : boxWf ⟨s1, b⟩) :
    boxWf ⟨s2, b⟩ := h

theorem scan_regions_wf (grid : Nat → Nat) (rows cols cs w h : Nat) (hcs : 0 < cs)
    (hrows : rows = (h + cs - 1) / cs) (hcols : cols = (w + cs - 1) / cs)
    (L : List (Nat × Nat)) (hL : ∀ rc ∈ L, rc.1 < rows ∧ rc.2 < cols) :
    ∀ st : ScanState, (∀ reg ∈ st.regions, boxWf reg) →
      ∀ reg ∈ (L.foldl (scanCell grid rows cols cs w h) st).regions, boxWf reg := by
  induction L with
  | nil => intro st hst reg hreg; exact hst reg hreg
  | cons rc L ih =>
    intro st hst reg hreg
    rw [List.foldl_cons] at hreg
    refine ih (fun q hq => hL q (List.mem_cons_of_mem rc hq)) _ ?_ reg hreg
    intro reg' hreg'
    unfold scanCell at hreg'
    dsimp only at hreg'
    split at hreg'
    case isFalse => exact hst reg' hreg'
    case isTrue hcond =>
      simp only [List.mem_append, List.mem_singleton] at hreg'
      rcases hreg' with hreg' | hreg'
      · exact hst reg' hreg'
      · subst hreg'
        have hrc := hL rc (List.mem_cons_self rc L)
        have hb0 : FloodBounds rows cols
            ⟨[rc], upd st.visited (rc.1 * cols + rc.2) 1, rc.1, rc.1, rc.2, rc.2, [rc]⟩ := by
          refine ⟨le_refl _, hrc.1, le_refl _, hrc.2, ?_⟩
          intro q hq
          rw [List.mem_singleton] at hq
          subst hq
          exact hrc
        have hb := floodLoop_bounds grid rows cols (rows * cols) _ hb0
        obtain ⟨b1, b2, b3, b4, _⟩ := hb
        apply boxWf_id_irrel ""
        exact regionBox_wf cs w h _ _ _ _ hcs b1 (hrows ▸ b2) b3 (hcols ▸ b4)

/-! ## Option-indexed embedding of the Grid Differ and Region Clusterer

The same loops, with the byte buffers as `List Nat` of the allocated
lengths and every index access `Option`-guarded: a read uses `get?`, a
store uses `setB`, and any out-of-bounds access aborts the whole
computation with `none`. -/

/-- Bounds-checked store into a `List`-backed buffer. -/
def setB (l : List Nat) (i v : Nat) : Option (List Nat) :=
  if i < l.length then some (l.set i v) else none

/-- `procPixel` with checked accesses: six channel reads, then either
the four magenta stores or the single alpha store. -/
def procPixelB (d1 d2 : List Nat) (w pt : Nat) (st : Nat × List Nat) (q : Nat × Nat) :
    Option (Nat × List Nat) := do
  let i := (q.1 * w + q.2) * 4
  let a0 ← d1.get? i
  let b0 ← d2.get? i
  let a1 ← d1.get? (i + 1)
  let b1 ← d2.get? (i + 1)
  let a2 ← d1.get? (i + 2)
  let b2 ← d2.get? (i + 2)
  let d := ((a0 : Int) - (b0 : Int)).natAbs + ((a1 : Int) - (b1 : Int)).natAbs +
    ((a2 : Int) - (b2 : Int)).natAbs
  if d > pt then do
    let m0 ← setB st.2 i 255
    let m1 ← setB m0 (i + 1) 0
    let m2 ← setB m1 (i + 2) 255
    let m3 ← setB m2 (i + 3) 255
    return (st.1 + 1, m3)
  else do
    let m ← setB st.2 (i + 3) 0
    return (st.1, m)

/-- `procCell` with checked accesses. -/
def procCellB (d1 d2 : List Nat) (w h cs pt ct cols : Nat) (st : List Nat × List Nat)
    (rc : Nat × Nat) : Option (List Nat × List Nat) := do
  let res ← (cellPixels cs w h rc.1 rc.2).foldlM (procPixelB d1 d2 w pt) (0, st.1)
  if res.1 > ct then do
    let g ← setB st.2 (rc.1 * cols + rc.2) 1
    return (res.2, g)
  else
    return (res.2, st.2)

/-- The Grid Differ with checked accesses, starting from the allocated
zero buffers (`createImageData` of `w*h*4` bytes, `Uint8Array` of
`cols*rows` cells). -/
def gridDiffB (d1 d2 : List Nat) (w h cs pt ct : Nat) : Option (List Nat × List Nat) :=
  let cols := (w + cs - 1) / cs
  let rows := (h + cs - 1) / cs
  (gridCells rows cols).foldlM (procCellB d1 d2 w h cs pt ct cols)
    (List.replicate (w * h * 4) 0, List.replicate (cols * rows) 0)

/-- Flood-fill state over the `List`-backed visited buffer. -/
structure FloodStateB where
  queue : List (Nat × Nat)
  visited : List Nat
  minR : Nat
  maxR : Nat
  minC : Nat
  maxC : Nat

/-- `tryVisit` with checked accesses (the range check precedes the
indexing, as in the source). -/
def tryVisitB (grid : List Nat) (rows cols : Nat) (st : FloodStateB) (n : Int × Int) :
    Option FloodStateB :=
  if 0 ≤ n.1 ∧ n.1 < (rows : Int) ∧ 0 ≤ n.2 ∧ n.2 < (cols : Int) then do
    let nR := n.1.toNat
    let nC := n.2.toNat
    let nIdx := nR * cols + nC
    let g ← grid.get? nIdx
    let v ← st.visited.get? nIdx
    if g = 1 ∧ v = 0 then do
      let v2 ← setB st.visited nIdx 1
      return { st with visited := v2, queue := st.queue ++ [(nR, nC)] }
    else
      return st
  else
    return st

/-- `floodStep` with checked accesses. -/
def floodStepB (grid : List Nat) (rows cols : Nat) (st : FloodStateB) : Option FloodStateB :=
  match st.queue with
  | [] => some st
  | (curR, curC) :: rest =>
    let st1 : FloodStateB :=
      { st with queue := rest,
                minR := min st.minR curR, maxR := max st.maxR curR,
                minC := min st.minC curC, maxC := max st.maxC curC }
    (neighborList curR curC).foldlM (tryVisitB grid rows cols) st1

/-- The flood loop with checked accesses. -/
def floodLoopB (grid : List Nat) (rows cols : Nat) : Nat → FloodStateB → Option FloodStateB
  | 0, st => some st
  | fuel + 1, st =>
    if st.queue = [] then some st
    else do
      let st2 ← floodStepB grid rows cols st
      floodLoopB grid rows cols fuel st2

/-- Scan state over the `List`-backed visited buffer. -/
structure ScanStateB where
  visited : List Nat
  regions : List DiffRegion
  regionCount : Nat

/-- `scanCell` with checked accesses. -/
def scanCellB (grid : List Nat) (rows cols cs w h : Nat) (st : ScanStateB) (rc : Nat × Nat) :
    Option ScanStateB := do
  let idx := rc.1 * cols + rc.2
  let g ← grid.get? idx
  let v ← st.visited.get? idx
  if g = 1 ∧ v = 0 then do
    let n := st.regionCount + 1
    let v2 ← setB st.visited idx 1
    let fs ← floodLoopB grid rows cols (rows * cols) ⟨[rc], v2, rc.1, rc.1, rc.2, rc.2⟩
    return ⟨fs.visited,
      st.regions ++ [⟨toString n, regionBox cs w h fs.minR fs.maxR fs.minC fs.maxC⟩], n⟩
  else
    return st

/-- The Region Clusterer with checked accesses, from the allocated
zero `visited` buffer. -/
def clusterRegionsB (grid : List Nat) (rows cols cs w h : Nat) : Option (List DiffRegion) := do
  let ss ← (gridCells rows cols).foldlM (scanCellB grid rows cols cs w h)
    ⟨List.replicate (cols * rows) 0, [], 0⟩
  return ss.regions

/-- Grid Differ followed by Region Clusterer, all accesses checked. -/
def detectCoreB (d1 d2 : List Nat) (w h cs pt ct : Nat) :
    Option (List DiffRegion × List Nat) := do
  let cols := (w + cs - 1) / cs
  let rows := (h + cs - 1) / cs
  let md ← gridDiffB d1 d2 w h cs pt ct
  let regions ← clusterRegionsB md.2 rows cols cs w h
  return (regions, md.1)

/-! ## The error branch of the checked embedding is unreachable -/

theorem foldlM_inv {α β : Type _} (f : β → α → Option β) (inv : β → Prop) (L : List α) :
    (∀ b a, inv b → a ∈ L → ∃ b2, f b a = some b2 ∧ inv b2) →
    ∀ b, inv b → ∃ b2, L.foldlM f b = some b2 ∧ inv b2 := by
  induction L with
  | nil => intro _ b hb; exact ⟨b, rfl, hb⟩
  | cons a L ih =>
    intro hstep b hb
    obtain ⟨b1, hf, hinv1⟩ := hstep b a hb (List.mem_cons_self _ _)
    rw [List.foldlM_cons, hf]
    simpa using ih (fun b2 a2 hb2 ha2 => hstep b2 a2 hb2 (List.mem_cons_of_mem _ ha2)) b1 hinv1

theorem get?_isSome_of_lt {l : List Nat} {i : Nat} (h : i < l.length) :
    ∃ v, l.get? i = some v :=
  ⟨l.get ⟨i, h⟩, List.get?_eq_get h⟩

theorem setB_some {l : List Nat} {i : Nat} (v : Nat) (h : i < l.length) :
    setB l i v = some (l.set i v) := if_pos h

theorem pixIdx_bound {w h y x : Nat} (hy : y < h) (hx : x < w) (k : Nat) (hk : k ≤ 3) :
    (y * w + x) * 4 + k < w * h * 4 := by
  have h1 : y * w + x < h * w := by
    have h2 : (y + 1) * w ≤ h * w := Nat.mul_le_mul_right w (by omega)
    rw [Nat.add_mul, Nat.one_mul] at h2
    omega
  have h3 : h * w = w * h := Nat.mul_comm h w
  omega

theorem gridIdx_bound {rows cols r c : Nat} (hr : r < rows) (hc : c < cols) :
    r * cols + c < cols * rows := by
  have h2 : (r + 1) * cols ≤ rows * cols := Nat.mul_le_mul_right cols (by omega)
  rw [Nat.add_mul, Nat.one_mul] at h2
  have h3 : rows * cols = cols * rows := Nat.mul_comm _ _
  omega

theorem procPixelB_some (d1 d2 : List Nat) (w h pt : Nat) (q : Nat × Nat)
    (hq1 : q.1 < h) (hq2 : q.2 < w)
    (h1 : d1.length = w * h * 4) (h2 : d2.length = w * h * 4)
    (st : Nat × List Nat) (hst : st.2.length = w * h * 4) :
    ∃ st2, procPixelB d1 d2 w pt st q = some st2 ∧ st2.2.length = w * h * 4 := by
  have hb : ∀ k, k ≤ 3 → (q.1 * w + q.2) * 4 + k < w * h * 4 :=
    fun k hk => pixIdx_bound hq1 hq2 k hk
  have hi0 : (q.1 * w + q.2) * 4 < w * h * 4 := by have := hb 0 (by omega); omega
  obtain ⟨a0, ha0⟩ := get?_isSome_of_lt (l := d1) (i := (q.1 * w + q.2) * 4) (by omega)
  obtain ⟨b0, hb0⟩ := get?_isSome_of_lt (l := d2) (i := (q.1 * w + q.2) * 4) (by omega)
  obtain ⟨a1, ha1⟩ := get?_isSome_of_lt (l := d1) (i := (q.1 * w + q.2) * 4 + 1)
    (by have := hb 1 (by omega); omega)
  obtain ⟨b1, hb1⟩ := get?_isSome_of_lt (l := d2) (i := (q.1 * w + q.2) * 4 + 1)
    (by have := hb 1 (by omega); omega)
  obtain ⟨a2, ha2⟩ := get?_isSome_of_lt (l := d1) (i := (q.1 * w + q.2) * 4 + 2)
    (by have := hb 2 (by omega); omega)
  obtain ⟨b2, hb2⟩ := get?_isSome_of_lt (l := d2) (i := (q.1 * w + q.2) * 4 + 2)
    (by have := hb 2 (by omega); omega)
  simp only [procPixelB, ha0, hb0, ha1, hb1, ha2, hb2, Option.bind_eq_bind, Option.some_bind]
  by_cases hd : ((a0 : Int) - (b0 : Int)).natAbs + ((a1 : Int) - (b1 : Int)).natAbs +
      ((a2 : Int) - (b2 : Int)).natAbs > pt
  · rw [if_pos hd]
    have e0 := setB_some (l := st.2) (i := (q.1 * w + q.2) * 4) 255 (by omega)
    have e1 := setB_some (l := st.2.set ((q.1 * w + q.2) * 4) 255)
      (i := (q.1 * w + q.2) * 4 + 1) 0
      (by simp only [List.length_set, hst]; exact hb 1 (by omega))
    have e2 := setB_some (l := (st.2.set ((q.1 * w + q.2) * 4) 255).set
        ((q.1 * w + q.2) * 4 + 1) 0)
      (i := (q.1 * w + q.2) * 4 + 2) 255
      (by simp only [List.length_set, hst]; exact hb 2 (by omega))
    have e3 := setB_some (l := ((st.2.set ((q.1 * w + q.2) * 4) 255).set
        ((q.1 * w + q.2) * 4 + 1) 0).set ((q.1 * w + q.2) * 4 + 2) 255)
      (i := (q.1 * w + q.2) * 4 + 3) 255
      (by simp only [List.length_set, hst]; exact hb 3 (by omega))
    simp only [e0, e1, e2, e3, Option.bind_eq_bind, Option.some_bind]
    refine ⟨_, rfl, ?_⟩
    simp only [List.length_set, hst]
  · rw [if_neg hd]
    have e := setB_some (l := st.2) (i := (q.1 * w + q.2) * 4 + 3) 0
      (by rw [hst]; exact hb 3 (by omega))
    simp only [e, Option.bind_eq_bind, Option.some_bind]
    refine ⟨_, rfl, ?_⟩
    simp only [List.length_set, hst]

theorem procCellB_some (d1 d2 : List Nat) (w h cs pt ct cols rows : Nat) (rc : Nat × Nat)
    (hr : rc.1 < rows) (hc : rc.2 < cols)
    (h1 : d1.length = w * h * 4) (h2 : d2.length = w * h * 4)
    (st : List Nat × List Nat) (hm : st.1.length = w * h * 4) (hg : st.2.length = cols * rows) :
    ∃ st2, procCellB d1 d2 w h cs pt ct cols st rc = some st2 ∧
      st2.1.length = w * h * 4 ∧ st2.2.length = cols * rows := by
  obtain ⟨res, hres, hreslen⟩ := foldlM_inv (procPixelB d1 d2 w pt)
    (fun s => s.2.length = w * h * 4) (cellPixels cs w h rc.1 rc.2)
    (fun b a hb ha => by
      have hmem := mem_cellPixels.mp ha
      exact procPixelB_some d1 d2 w h pt a (by omega) (by omega) h1 h2 b hb)
    (0, st.1) hm
  simp only [procCellB, hres, Option.bind_eq_bind, Option.some_bind]
  by_cases hct : res.1 > ct
  · rw [if_pos hct]
    have e := setB_some (l := st.2) (i := rc.1 * cols + rc.2) 1
      (by rw [hg]; exact gridIdx_bound hr hc)
    simp only [e, Option.bind_eq_bind, Option.some_bind]
    exact ⟨_, rfl, hreslen, by simp only [List.length_set, hg]⟩
  · rw [if_neg hct]
    exact ⟨_, rfl, hreslen, hg⟩

theorem gridDiffB_some (d1 d2 : List Nat) (w h cs pt ct : Nat)
    (h1 : d1.length = w * h * 4) (h2 : d2.length = w * h * 4) :
    ∃ md, gridDiffB d1 d2 w h cs pt ct = some md ∧
      md.1.length = w * h * 4 ∧ md.2.length = ((w + cs - 1) / cs) * ((h + cs - 1) / cs) := by
  unfold gridDiffB
  obtain ⟨md, hmd, hlen⟩ := foldlM_inv (procCellB d1 d2 w h cs pt ct ((w + cs - 1) / cs))
    (fun s => s.1.length = w * h * 4 ∧ s.2.length = ((w + cs - 1) / cs) * ((h + cs - 1) / cs))
    (gridCells ((h + cs - 1) / cs) ((w + cs - 1) / cs))
    (fun b a hb ha => by
      have hmem := mem_gridCells.mp ha
      obtain ⟨s2, hs2, hl1, hl2⟩ := procCellB_some d1 d2 w h cs pt ct
        ((w + cs - 1) / cs) ((h + cs - 1) / cs) a hmem.1 hmem.2 h1 h2 b hb.1 hb.2
      exact ⟨s2, hs2, hl1, hl2⟩)
    (List.replicate (w * h * 4) 0, List.replicate (((w + cs - 1) / cs) * ((h + cs - 1) / cs)) 0)
    (by simp)
  exact ⟨md, hmd, hlen⟩

theorem tryVisitB_some (grid : List Nat) (rows cols : Nat) (st : FloodStateB) (n : Int × Int)
    (hg : grid.length = cols * rows) (hv : st.visited.length = cols * rows) :
    ∃ st2, tryVisitB grid rows cols st n = some st2 ∧ st2.visited.length = cols * rows := by
  unfold tryVisitB
  by_cases hcond : 0 ≤ n.1 ∧ n.1 < (rows : Int) ∧ 0 ≤ n.2 ∧ n.2 < (cols : Int)
  · rw [if_pos hcond]
    have hidx : n.1.toNat * cols + n.2.toNat < cols * rows :=
      gridIdx_bound (by omega) (by omega)
    obtain ⟨g, hgv⟩ := get?_isSome_of_lt (l := grid) (i := n.1.toNat * cols + n.2.toNat)
      (by omega)
    obtain ⟨v, hvv⟩ := get?_isSome_of_lt (l := st.visited) (i := n.1.toNat * cols + n.2.toNat)
      (by omega)
    simp only [hgv, hvv, Option.bind_eq_bind, Option.some_bind]
    by_cases hgood : g = 1 ∧ v = 0
    · rw [if_pos hgood]
      have e := setB_some (l := st.visited) (i := n.1.toNat * cols + n.2.toNat) 1 (by omega)
      simp only [e, Option.bind_eq_bind, Option.some_bind]
      exact ⟨_, rfl, by simp only [List.length_set, hv]⟩
    · rw [if_neg hgood]
      exact ⟨st, rfl, hv⟩
  · rw [if_neg hcond]
    exact ⟨st, rfl, hv⟩

theorem floodStepB_some (grid : List Nat) (rows cols : Nat) (st : FloodStateB)
    (hg : grid.length = cols * rows) (hv : st.visited.length = cols * rows) :
    ∃ st2, floodStepB grid rows cols st = some st2 ∧ st2.visited.length = cols * rows := by
  rcases hqe : st.queue with _ | ⟨⟨curR, curC⟩, rest⟩
  · exact ⟨st, by simp only [floodStepB, hqe], hv⟩
  · have : floodStepB grid rows cols st =
        (neighborList curR curC).foldlM (tryVisitB grid rows cols)
          { st with queue := rest,
                    minR := min st.minR curR, maxR := max st.maxR curR,
                    minC := min st.minC curC, maxC := max st.maxC curC } := by
      simp only [floodStepB, hqe]
    rw [this]
    exact foldlM_inv (tryVisitB grid rows cols) (fun s => s.visited.length = cols * rows) _
      (fun b a hb _ => tryVisitB_some grid rows cols b a hg hb) _ hv

theorem floodLoopB_some (grid : List Nat) (rows cols : Nat) (fuel : Nat)
    (hg : grid.length = cols * rows) :
    ∀ st : FloodStateB, st.visited.length = cols * rows →
      ∃ st2, floodLoopB grid rows cols fuel st = some st2 ∧
        st2.visited.length = cols * rows := by
  induction fuel with
  | zero => intro st hv; exact ⟨st, rfl, hv⟩
  | succ fuel ih =>
    intro st hv
    unfold floodLoopB
    by_cases hq : st.queue = []
    · rw [if_pos hq]
      exact ⟨st, rfl, hv⟩
    · rw [if_neg hq]
      obtain ⟨st1, hst1, hv1⟩ := floodStepB_some grid rows cols st hg hv
      obtain ⟨st2, hst2, hv2⟩ := ih st1 hv1
      rw [hst1]
      exact ⟨st2, by simpa using hst2, hv2⟩

theorem scanCellB_some (grid : List Nat) (rows cols cs w h : Nat) (rc : Nat × Nat)
    (hr : rc.1 < rows) (hc : rc.2 < cols) (hg : grid.length = cols * rows)
    (st : ScanStateB) (hv : st.visited.length = cols * rows) :
    ∃ st2, scanCellB grid rows cols cs w h st rc = some st2 ∧
      st2.visited.length = cols * rows := by
  have hidx : rc.1 * cols + rc.2 < cols * rows := gridIdx_bound hr hc
  obtain ⟨g, hgv⟩ := get?_isSome_of_lt (l := grid) (i := rc.1 * cols + rc.2) (by omega)
  obtain ⟨v, hvv⟩ := get?_isSome_of_lt (l := st.visited) (i := rc.1 * cols + rc.2) (by omega)
  simp only [scanCellB, hgv, hvv, Option.bind_eq_bind, Option.some_bind]
  by_cases hgood : g = 1 ∧ v = 0
  · rw [if_pos hgood]
    have e := setB_some (l := st.visited) (i := rc.1 * cols + rc.2) 1 (by omega)
    simp only [e, Option.bind_eq_bind, Option.some_bind]
    obtain ⟨fs, hfs, hfl⟩ := floodLoopB_some grid rows cols (rows * cols) hg
      ⟨[rc], st.visited.set (rc.1 * cols + rc.2) 1, rc.1, rc.1, rc.2, rc.2⟩
      (by simp only [List.length_set, hv])
    simp only [hfs, Option.bind_eq_bind, Option.some_bind]
    exact ⟨_, rfl, hfl⟩
  · rw [if_neg hgood]
    exact ⟨st, rfl, hv⟩

theorem clusterRegionsB_some (grid : List Nat) (rows cols cs w h : Nat)
    (hg : grid.length = cols * rows) :
    ∃ rg, clusterRegionsB grid rows cols cs w h = some rg := by
  obtain ⟨ss, hss, _⟩ := foldlM_inv (scanCellB grid rows cols cs w h)
    (fun s => s.visited.length = cols * rows) (gridCells rows cols)
    (fun b a hb ha => by
      have hmem := mem_gridCells.mp ha
      exact scanCellB_some grid rows cols cs w h a hmem.1 hmem.2 hg b hb)
    ⟨List.replicate (cols * rows) 0, [], 0⟩ (by simp)
  exact ⟨ss.regions,
    by simp only [clusterRegionsB, hss, Option.bind_eq_bind, Option.some_bind]; rfl⟩

/-! ## Connectivity of changed cells -/

/-- Flat index of a cell in the `rows × cols` grid. -/
def cellIdx (cols : Nat) (p : Nat × Nat) : Nat := p.1 * cols + p.2

/-- The cell lies inside the grid. -/
def inGrid (rows cols : Nat) (p : Nat × Nat) : Prop := p.1 < rows ∧ p.2 < cols

/-- The cell is inside the grid and flagged changed. -/
def changedCell (grid : Nat → Nat) (rows cols : Nat) (p : Nat × Nat) : Prop :=
  p.1 < rows ∧ p.2 < cols ∧ grid (cellIdx cols p) = 1

/-- 8-connectivity: distinct cells whose coordinates differ by at most
one in each direction (edge or corner adjacency). -/
def adj8 (p q : Nat × Nat) : Prop :=
  p ≠ q ∧ p.1 ≤ q.1 + 1 ∧ q.1 ≤ p.1 + 1 ∧ p.2 ≤ q.2 + 1 ∧ q.2 ≤ p.2 + 1

/-- Adjacency within the changed-cell set. -/
def adjC (grid : Nat → Nat) (rows cols : Nat) (p q : Nat × Nat) : Prop :=
  changedCell grid rows cols p ∧ changedCell grid rows cols q ∧ adj8 p q

/-- Connectivity: reflexive-transitive closure of changed-cell
adjacency; its classes on changed cells are the 8-connected components. -/
def conn (grid : Nat → Nat) (rows cols : Nat) : Nat × Nat → Nat × Nat → Prop :=
  Relation.ReflTransGen (adjC grid rows cols)

/-- All buffer values are 0 or 1 (as for a `Uint8Array` written with 1s). -/
def vis01 (V : Nat → Nat) : Prop := ∀ i, V i = 0 ∨ V i = 1

theorem changedCell_inGrid {grid : Nat → Nat} {rows cols : Nat} {p : Nat × Nat}
    (h : changedCell grid rows cols p) : inGrid rows cols p := ⟨h.1, h.2.1⟩

theorem adj8_symm {p q : Nat × Nat} (h : adj8 p q) : adj8 q p := by
  obtain ⟨h1, h2, h3, h4, h5⟩ := h
  exact ⟨fun hc => h1 hc.symm, h3, h2, h5, h4⟩

theorem adjC_symm {grid : Nat → Nat} {rows cols : Nat} {p q : Nat × Nat}
    (h : adjC grid rows cols p q) : adjC grid rows cols q p :=
  ⟨h.2.1, h.1, adj8_symm h.2.2⟩

theorem conn_symm {grid : Nat → Nat} {rows cols : Nat} {p q : Nat × Nat}
    (h : conn grid rows cols p q) : conn grid rows cols q p :=
  Relation.ReflTransGen.symmetric (fun _ _ hab => adjC_symm hab) h

theorem conn_trans {grid : Nat → Nat} {rows cols : Nat} {p q r : Nat × Nat}
    (h1 : conn grid rows cols p q) (h2 : conn grid rows cols q r) :
    conn grid rows cols p r := Relation.ReflTransGen.trans h1 h2

theorem cellIdx_inj_pair {cols : Nat} {p q : Nat × Nat} (hp : p.2 < cols) (hq : q.2 < cols)
    (h : cellIdx cols p = cellIdx cols q) : p = q := by
  obtain ⟨e1, e2⟩ := cellIdx_inj hp hq h
  obtain ⟨a, b⟩ := p
  obtain ⟨c, d⟩ := q
  simp only at e1 e2
  simp [e1, e2]

/-- A visited buffer closed under changed-cell adjacency is closed under
connectivity. -/
theorem visited_conn_closed {grid : Nat → Nat} {rows cols : Nat} {V : Nat → Nat}
    (hcl : ∀ p q, inGrid rows cols p → V (cellIdx cols p) = 1 → adjC grid rows cols p q →
      V (cellIdx cols q) = 1)
    {a b : Nat × Nat} (hab : conn grid rows cols a b) (_ha : inGrid rows cols a)
    (hV : V (cellIdx cols a) = 1) : V (cellIdx cols b) = 1 := by
  induction hab with
  | refl => exact hV
  | tail hpath hstep ih => exact hcl _ _ (changedCell_inGrid hstep.1) ih hstep

/-- Every in-range 8-neighbor of `cur` occurs in its probe list. -/
theorem adj8_mem_neighborList {cur q : Nat × Nat} (h : adj8 cur q) :
    ((q.1 : Int), (q.2 : Int)) ∈ neighborList cur.1 cur.2 := by
  obtain ⟨hne, h2, h3, h4, h5⟩ := h
  obtain ⟨a, b⟩ := cur
  obtain ⟨c, d⟩ := q
  simp only at h2 h3 h4 h5
  have hne2 : ¬(c = a ∧ d = b) := by
    intro hc
    exact hne (by simp [hc.1, hc.2])
  have h1 : c + 1 = a ∨ c = a ∨ c = a + 1 := by omega
  have h6 : d + 1 = b ∨ d = b ∨ d = b + 1 := by omega
  simp only [neighborList, List.mem_cons, List.mem_singleton, Prod.mk.injEq]
  rcases h1 with h1 | h1 | h1 <;> rcases h6 with h6 | h6 | h6 <;>
    [skip; skip; skip; skip; exact absurd ⟨by omega, by omega⟩ hne2; skip; skip; skip; skip] <;>
    omega

theorem adj8_of_bounds {a b c d : Nat} (hne : ¬(a = c ∧ b = d)) (h1 : a ≤ c + 1)
    (h2 : c ≤ a + 1) (h3 : b ≤ d + 1) (h4 : d ≤ b + 1) : adj8 (a, b) (c, d) :=
  ⟨fun hc => hne (Prod.mk.injEq a b c d ▸ Prod.ext_iff.mp hc), h1, h2, h3, h4⟩

/-- Every in-range entry of the probe list is an 8-neighbor of `cur`. -/
theorem neighborList_adj8 {curR curC : Nat} {n : Int × Int}
    (hmem : n ∈ neighborList curR curC) (h0 : 0 ≤ n.1) (h02 : 0 ≤ n.2) :
    adj8 (curR, curC) (n.1.toNat, n.2.toNat) := by
  obtain ⟨n1, n2⟩ := n
  simp only at h0 h02
  simp only [neighborList, List.mem_cons, List.mem_singleton, List.not_mem_nil, or_false,
    Prod.mk.injEq] at hmem
  show adj8 (curR, curC) (n1.toNat, n2.toNat)
  rcases hmem with he | he | he | he | he | he | he | he <;>
    obtain ⟨e1, e2⟩ := he <;>
    exact adj8_of_bounds (by omega) (by omega) (by omega) (by omega) (by omega)

theorem gridCells_succ (rows cols : Nat) :
    gridCells (rows + 1) cols =
      gridCells rows cols ++ (List.range cols).map (fun c => (rows, c)) := by
  unfold gridCells
  rw [List.range_succ, List.flatMap_append]
  simp

/-- The outer scan visits cells in strictly increasing row-major order. -/
theorem pairwise_rm_gridCells (rows cols : Nat) :
    List.Pairwise (fun p q : Nat × Nat => cellIdx cols p < cellIdx cols q)
      (gridCells rows cols) := by
  induction rows with
  | zero => simp [gridCells]
  | succ rows ih =>
    rw [gridCells_succ, List.pairwise_append]
    refine ⟨ih, ?_, ?_⟩
    · rw [List.pairwise_map]
      refine (List.pairwise_lt_range cols).imp ?_
      intro a b hab
      simp only [cellIdx]
      omega
    · intro p hp q hq
      have hpg := mem_gridCells.mp hp
      simp only [List.mem_map, List.mem_range] at hq
      obtain ⟨c, hc, rfl⟩ := hq
      simp only [cellIdx]
      have h1 : (p.1 + 1) * cols ≤ rows * cols := Nat.mul_le_mul_right cols (by omega)
      rw [Nat.add_mul, Nat.one_mul] at h1
      omega

theorem head?_mem_self {α : Type _} {l : List α} {a : α} (h : l.head? = some a) : a ∈ l := by
  cases l with
  | nil => simp at h
  | cons x xs =>
    simp only [List.head?_cons, Option.some.injEq] at h
    exact h ▸ List.mem_cons_self _ _

theorem head?_append_some {α : Type _} {l l2 : List α} {a : α} (h : l.head? = some a) :
    (l ++ l2).head? = some a := by
  cases l with
  | nil => simp at h
  | cons x xs => simpa using h

/-- Core invariant of one flood fill, relative to the visited buffer
`V0` at its start and its seed `s`: visited is exactly `V0` plus the
ghost trace, the trace holds distinct changed cells connected to the
seed and not previously visited, the worklist holds traced cells, and
the trace starts with the seed. -/
structure FloodInvCore (grid : Nat → Nat) (rows cols : Nat) (V0 : Nat → Nat) (s : Nat × Nat)
    (st : FloodState) : Prop where
  v01 : vis01 st.visited
  viff : ∀ p : Nat × Nat, inGrid rows cols p →
    (st.visited (cellIdx cols p) = 1 ↔ V0 (cellIdx cols p) = 1 ∨ p ∈ st.cells)
  cellsChanged : ∀ p ∈ st.cells, changedCell grid rows cols p
  cellsConn : ∀ p ∈ st.cells, conn grid rows cols s p
  cellsNotV0 : ∀ p ∈ st.cells, V0 (cellIdx cols p) ≠ 1
  queueSub : ∀ p ∈ st.queue, p ∈ st.cells
  queueNodup : st.queue.Nodup
  cellsNodup : st.cells.Nodup
  headSeed : st.cells.head? = some s

/-- Every traced cell no longer on the worklist — other than the
optional exception `e` — has all its changed neighbors visited. -/
def procClosedExcept (grid : Nat → Nat) (rows cols : Nat) (e : Option (Nat × Nat))
    (st : FloodState) : Prop :=
  ∀ p ∈ st.cells, p ∉ st.queue → some p ≠ e →
    ∀ q, adjC grid rows cols p q → st.visited (cellIdx cols q) = 1

theorem procClosedExcept_mono {grid : Nat → Nat} {rows cols : Nat} {e : Option (Nat × Nat)}
    {st st' : FloodState}
    (hB : ∀ i, st.visited i = 1 → st'.visited i = 1)
    (hD : ∀ p ∈ st.queue, p ∈ st'.queue)
    (hE : ∀ p ∈ st'.cells, p ∈ st.cells ∨ p ∈ st'.queue)
    (h : procClosedExcept grid rows cols e st) : procClosedExcept grid rows cols e st' := by
  intro p hp hq hne q hadj
  rcases hE p hp with hold | hnew
  · exact hB _ (h p hold (fun hmem => hq (hD p hmem)) hne q hadj)
  · exact absurd hnew hq

theorem tryVisit_inv (grid : Nat → Nat) (rows cols : Nat) (V0 : Nat → Nat) (s cur : Nat × Nat)
    (st : FloodState) (n : Int × Int)
    (hmem : n ∈ neighborList cur.1 cur.2)
    (hcore : FloodInvCore grid rows cols V0 s st)
    (hcur : cur ∈ st.cells) :
    FloodInvCore grid rows cols V0 s (tryVisit grid rows cols st n) ∧
    (∀ i, st.visited i = 1 → (tryVisit grid rows cols st n).visited i = 1) ∧
    (∀ p ∈ st.cells, p ∈ (tryVisit grid rows cols st n).cells) ∧
    (∀ p ∈ st.queue, p ∈ (tryVisit grid rows cols st n).queue) ∧
    (∀ p ∈ (tryVisit grid rows cols st n).cells,
      p ∈ st.cells ∨ p ∈ (tryVisit grid rows cols st n).queue) ∧
    (0 ≤ n.1 → n.1 < (rows : Int) → 0 ≤ n.2 → n.2 < (cols : Int) →
      grid (n.1.toNat * cols + n.2.toNat) = 1 →
      (tryVisit grid rows cols st n).visited (n.1.toNat * cols + n.2.toNat) = 1) := by
  unfold tryVisit
  by_cases hrange : 0 ≤ n.1 ∧ n.1 < (rows : Int) ∧ 0 ≤ n.2 ∧ n.2 < (cols : Int)
  · rw [if_pos hrange]
    dsimp only
    by_cases hgv : grid (n.1.toNat * cols + n.2.toNat) = 1 ∧
        st.visited (n.1.toNat * cols + n.2.toNat) = 0
    · rw [if_pos hgv]
      dsimp only
      obtain ⟨hr1, hr2, hr3, hr4⟩ := hrange
      set np : Nat × Nat := (n.1.toNat, n.2.toNat) with hnp
      have hidx : cellIdx cols np = n.1.toNat * cols + n.2.toNat := rfl
      have hinp : inGrid rows cols np :=
        ⟨by show n.1.toNat < rows; omega, by show n.2.toNat < cols; omega⟩
      have hnpnotin : np ∉ st.cells := by
        intro hin
        have := (hcore.viff np hinp).mpr (Or.inr hin)
        rw [hidx] at this
        omega
      have hnpchanged : changedCell grid rows cols np := ⟨hinp.1, hinp.2, hidx ▸ hgv.1⟩
      have hnpconn : conn grid rows cols s np := by
        refine Relation.ReflTransGen.tail (hcore.cellsConn cur hcur) ?_
        refine ⟨hcore.cellsChanged cur hcur, hnpchanged, ?_⟩
        have := neighborList_adj8 hmem hr1 hr3
        rwa [Prod.mk.eta] at this
      have hnpV0 : V0 (cellIdx cols np) ≠ 1 := by
        intro hv
        have := (hcore.viff np hinp).mpr (Or.inl hv)
        rw [hidx] at this
        omega
      have hnpnotq : np ∉ st.queue := fun hq => hnpnotin (hcore.queueSub np hq)
      refine ⟨⟨?_, ?_, ?_, ?_, ?_, ?_, ?_, ?_, ?_⟩, ?_, ?_, ?_, ?_, ?_⟩
      · intro i
        dsimp only
        by_cases hi : i = n.1.toNat * cols + n.2.toNat
        · subst hi; rw [upd_self]; right; rfl
        · rw [upd_other _ _ _ _ hi]; exact hcore.v01 i
      · intro p hp
        dsimp only
        by_cases hpn : p = np
        · subst hpn
          rw [hidx, upd_self]
          simp [List.mem_append]
        · have hne : cellIdx cols p ≠ n.1.toNat * cols + n.2.toNat := by
            rw [← hidx]
            intro he
            exact hpn (cellIdx_inj_pair hp.2 hinp.2 he)
          rw [upd_other _ _ _ _ hne]
          rw [hcore.viff p hp]
          simp only [List.mem_append, List.mem_singleton]
          constructor
          · rintro (h | h)
            · exact Or.inl h
            · exact Or.inr (Or.inl h)
          · rintro (h | h | h)
            · exact Or.inl h
            · exact Or.inr h
            · exact absurd h hpn
      · intro p hp
        rcases List.mem_append.mp hp with h | h
        · exact hcore.cellsChanged p h
        · rw [List.mem_singleton] at h
          exact h ▸ hnpchanged
      · intro p hp
        rcases List.mem_append.mp hp with h | h
        · exact hcore.cellsConn p h
        · rw [List.mem_singleton] at h
          exact h ▸ hnpconn
      · intro p hp
        rcases List.mem_append.mp hp with h | h
        · exact hcore.cellsNotV0 p h
        · rw [List.mem_singleton] at h
          exact h ▸ hnpV0
      · intro p hp
        rcases List.mem_append.mp hp with h | h
        · exact List.mem_append_left _ (hcore.queueSub p h)
        · exact List.mem_append_right _ h
      · rw [List.nodup_append]
        exact ⟨hcore.queueNodup, List.nodup_singleton _,
          fun p hp hp2 => hnpnotq ((List.mem_singleton.mp hp2) ▸ hp)⟩
      · rw [List.nodup_append]
        exact ⟨hcore.cellsNodup, List.nodup_singleton _,
          fun p hp hp2 => hnpnotin ((List.mem_singleton.mp hp2) ▸ hp)⟩
      · exact head?_append_some hcore.headSeed
      · intro i hi
        by_cases hie : i = n.1.toNat * cols + n.2.toNat
        · subst hie; exact upd_self _ _ _
        · rw [upd_other _ _ _ _ hie]; exact hi
      · intro p hp; exact List.mem_append_left _ hp
      · intro p hp; exact List.mem_append_left _ hp
      · intro p hp
        rcases List.mem_append.mp hp with h | h
        · exact Or.inl h
        · exact Or.inr (List.mem_append_right _ h)
      · intro _ _ _ _ _
        exact upd_self _ _ _
    · rw [if_neg hgv]
      refine ⟨hcore, fun i hi => hi, fun p hp => hp, fun p hp => hp, fun p hp => Or.inl hp, ?_⟩
      intro _ _ _ _ hgrid
      rcases hcore.v01 (n.1.toNat * cols + n.2.toNat) with h0 | h1
      · exact absurd ⟨hgrid, h0⟩ hgv
      · exact h1
  · rw [if_neg hrange]
    refine ⟨hcore, fun i hi => hi, fun p hp => hp, fun p hp => hp, fun p hp => Or.inl hp, ?_⟩
    intro h1 h2 h3 h4 _
    exact absurd ⟨h1, h2, h3, h4⟩ hrange

/-- Folding the probe over a sublist of `cur`'s neighbor list preserves
the core invariant, grows the buffers monotonically, and leaves every
changed in-range probed neighbor visited. -/
theorem foldl_tryVisit_inv (grid : Nat → Nat) (rows cols : Nat) (V0 : Nat → Nat)
    (s cur : Nat × Nat) (l : List (Int × Int)) (st : FloodState)
    (hl : ∀ n ∈ l, n ∈ neighborList cur.1 cur.2)
    (hcore : FloodInvCore grid rows cols V0 s st)
    (hcur : cur ∈ st.cells) :
    FloodInvCore grid rows cols V0 s (l.foldl (tryVisit grid rows cols) st) ∧
    (∀ i, st.visited i = 1 → (l.foldl (tryVisit grid rows cols) st).visited i = 1) ∧
    (∀ p ∈ st.cells, p ∈ (l.foldl (tryVisit grid rows cols) st).cells) ∧
    (∀ p ∈ st.queue, p ∈ (l.foldl (tryVisit grid rows cols) st).queue) ∧
    (∀ p ∈ (l.foldl (tryVisit grid rows cols) st).cells,
      p ∈ st.cells ∨ p ∈ (l.foldl (tryVisit grid rows cols) st).queue) ∧
    (∀ n ∈ l, 0 ≤ n.1 → n.1 < (rows : Int) → 0 ≤ n.2 → n.2 < (cols : Int) →
      grid (n.1.toNat * cols + n.2.toNat) = 1 →
      (l.foldl (tryVisit grid rows cols) st).visited (n.1.toNat * cols + n.2.toNat) = 1) := by
  induction l generalizing st with
  | nil =>
    exact ⟨hcore, fun i hi => hi, fun p hp => hp, fun p hp => hp, fun p hp => Or.inl hp,
      fun n hn => absurd hn (List.not_mem_nil n)⟩
  | cons a l ih =>
    obtain ⟨hc1, hmono, hcellm, hqm, hcq, hmark⟩ :=
      tryVisit_inv grid rows cols V0 s cur st a (hl a (List.mem_cons_self a l)) hcore hcur
    obtain ⟨ic1, imono, icellm, iqm, icq, imark⟩ :=
      ih (tryVisit grid rows cols st a) (fun n hn => hl n (List.mem_cons_of_mem a hn)) hc1
        (hcellm cur hcur)
    rw [List.foldl_cons]
    refine ⟨ic1, fun i hi => imono i (hmono i hi), fun p hp => icellm p (hcellm p hp),
      fun p hp => iqm p (hqm p hp), ?_, ?_⟩
    · intro p hp
      rcases icq p hp with h1 | h1
      · rcases hcq p h1 with h2 | h2
        · exact Or.inl h2
        · exact Or.inr (iqm p h2)
      · exact Or.inr h1
    · intro n hn h1 h2 h3 h4 h5
      rcases List.mem_cons.mp hn with rfl | hn2
      · exact imono _ (hmark h1 h2 h3 h4 h5)
      · exact imark n hn2 h1 h2 h3 h4 h5

/-! ## Termination of the flood fill -/

/-- Number of unvisited indices of the `rows * cols` buffer. -/
def unvisCount (rows cols : Nat) (V : Nat → Nat) : Nat :=
  (List.range (rows * cols)).countP (fun i => decide (V i = 0))

/-- Termination measure of one flood fill: unvisited cells plus pending
worklist entries.  Each `floodStep` decreases it by exactly one. -/
def meas (rows cols : Nat) (st : FloodState) : Nat :=
  unvisCount rows cols st.visited + st.queue.length

theorem idx_lt_total {r c rows cols : Nat} (hr : r < rows) (hc : c < cols) :
    r * cols + c < rows * cols := by
  calc r * cols + c < r * cols + cols := by omega
    _ = (r + 1) * cols := by rw [Nat.add_mul, Nat.one_mul]
    _ ≤ rows * cols := Nat.mul_le_mul_right _ (by omega)

theorem countP_upd_one {l : List Nat} {V : Nat → Nat} {idx : Nat}
    (hnd : l.Nodup) (hmem : idx ∈ l) (h0 : V idx = 0) :
    l.countP (fun i => decide (upd V idx 1 i = 0)) + 1 =
      l.countP (fun i => decide (V i = 0)) := by
  induction l with
  | nil => exact absurd hmem (List.not_mem_nil idx)
  | cons a l ih =>
    rw [List.countP_cons, List.countP_cons]
    rcases List.mem_cons.mp hmem with rfl | hmem2
    · have hnotin : idx ∉ l := (List.nodup_cons.mp hnd).1
      have htail : l.countP (fun i => decide (upd V idx 1 i = 0)) =
          l.countP (fun i => decide (V i = 0)) := by
        apply List.countP_congr
        intro x hx
        have hxne : x ≠ idx := fun he => hnotin (he ▸ hx)
        simp [upd_other _ _ _ _ hxne]
      rw [htail]
      simp [upd_self, h0]
    · have hnd2 : l.Nodup := (List.nodup_cons.mp hnd).2
      rw [← ih hnd2 hmem2]
      by_cases hae : a = idx
      · subst hae
        have hnotin : a ∉ l := (List.nodup_cons.mp hnd).1
        exact absurd hmem2 hnotin
      · rw [upd_other _ _ _ _ hae]
        omega

theorem unvisCount_upd {rows cols : Nat} {V : Nat → Nat} {idx : Nat}
    (hidx : idx < rows * cols) (h0 : V idx = 0) :
    unvisCount rows cols (upd V idx 1) + 1 = unvisCount rows cols V := by
  unfold unvisCount
  exact countP_upd_one (List.nodup_range _) (List.mem_range.mpr hidx) h0

theorem unvisCount_le (rows cols : Nat) (V : Nat → Nat) :
    unvisCount rows cols V ≤ rows * cols := by
  unfold unvisCount
  calc (List.range (rows * cols)).countP (fun i => decide (V i = 0)) ≤
      (List.range (rows * cols)).length := List.countP_le_length _
    _ = rows * cols := List.length_range _

theorem tryVisit_meas (grid : Nat → Nat) (rows cols : Nat) (st : FloodState) (n : Int × Int) :
    meas rows cols (tryVisit grid rows cols st n) = meas rows cols st := by
  unfold tryVisit
  by_cases hrange : 0 ≤ n.1 ∧ n.1 < (rows : Int) ∧ 0 ≤ n.2 ∧ n.2 < (cols : Int)
  · rw [if_pos hrange]
    dsimp only
    by_cases hgv : grid (n.1.toNat * cols + n.2.toNat) = 1 ∧
        st.visited (n.1.toNat * cols + n.2.toNat) = 0
    · rw [if_pos hgv]
      obtain ⟨h1, h2, h3, h4⟩ := hrange
      unfold meas
      dsimp only
      have hidx : n.1.toNat * cols + n.2.toNat < rows * cols :=
        idx_lt_total (by omega) (by omega)
      have hcnt := @unvisCount_upd rows cols st.visited _ hidx hgv.2
      rw [List.length_append, List.length_singleton]
      omega
    · rw [if_neg hgv]
  · rw [if_neg hrange]

theorem foldl_tryVisit_meas (grid : Nat → Nat) (rows cols : Nat) (l : List (Int × Int))
    (st : FloodState) :
    meas rows cols (l.foldl (tryVisit grid rows cols) st) = meas rows cols st := by
  induction l generalizing st with
  | nil => rfl
  | cons a l ih => rw [List.foldl_cons, ih, tryVisit_meas]

theorem floodStep_meas (grid : Nat → Nat) (rows cols : Nat) (st : FloodState)
    (h : st.queue ≠ []) :
    meas rows cols (floodStep grid rows cols st) + 1 = meas rows cols st := by
  obtain ⟨⟨curR, curC⟩, rest, hq⟩ := List.exists_cons_of_ne_nil h
  have hfs : floodStep grid rows cols st =
      (neighborList curR curC).foldl (tryVisit grid rows cols)
        { st with queue := rest,
                  minR := min st.minR curR, maxR := max st.maxR curR,
                  minC := min st.minC curC, maxC := max st.maxC curC } := by
    unfold floodStep
    rw [hq]
  rw [hfs, foldl_tryVisit_meas]
  unfold meas
  dsimp only
  rw [hq, List.length_cons]
  omega

/-- One dequeue step preserves the invariant pair and keeps the trace. -/
theorem floodStep_inv (grid : Nat → Nat) (rows cols : Nat) (V0 : Nat → Nat) (s : Nat × Nat)
    (st : FloodState)
    (hcore : FloodInvCore grid rows cols V0 s st)
    (hcl : procClosedExcept grid rows cols none st)
    (hne : st.queue ≠ []) :
    FloodInvCore grid rows cols V0 s (floodStep grid rows cols st) ∧
    procClosedExcept grid rows cols none (floodStep grid rows cols st) ∧
    (∀ p ∈ st.cells, p ∈ (floodStep grid rows cols st).cells) := by
  obtain ⟨⟨curR, curC⟩, rest, hq⟩ := List.exists_cons_of_ne_nil hne
  have hfs : floodStep grid rows cols st =
      (neighborList curR curC).foldl (tryVisit grid rows cols)
        { st with queue := rest,
                  minR := min st.minR curR, maxR := max st.maxR curR,
                  minC := min st.minC curC, maxC := max st.maxC curC } := by
    unfold floodStep
    rw [hq]
  have hcurq : (curR, curC) ∈ st.queue := by rw [hq]; exact List.mem_cons_self _ _
  have hcur : (curR, curC) ∈ st.cells := hcore.queueSub _ hcurq
  have hrestsub : ∀ p ∈ rest, p ∈ st.queue := by
    intro p hp
    rw [hq]
    exact List.mem_cons_of_mem _ hp
  have hcore1 : FloodInvCore grid rows cols V0 s
      { st with queue := rest,
                minR := min st.minR curR, maxR := max st.maxR curR,
                minC := min st.minC curC, maxC := max st.maxC curC } := by
    refine ⟨hcore.v01, hcore.viff, hcore.cellsChanged, hcore.cellsConn, hcore.cellsNotV0,
      ?_, ?_, hcore.cellsNodup, hcore.headSeed⟩
    · intro p hp
      exact hcore.queueSub p (hrestsub p hp)
    · have hnd := hcore.queueNodup
      rw [hq] at hnd
      exact (List.nodup_cons.mp hnd).2
  obtain ⟨fcore, fmono, fcellm, fqm, fcq, fmark⟩ :=
    foldl_tryVisit_inv grid rows cols V0 s (curR, curC) (neighborList curR curC)
      _ (fun n hn => hn) hcore1 hcur
  rw [hfs]
  refine ⟨fcore, ?_, fun p hp => fcellm p hp⟩
  intro p hp hpq hpe q hadj
  rcases fcq p hp with hold | hnew
  · by_cases hpc : p = (curR, curC)
    · subst hpc
      obtain ⟨hqr, hqc, hqg⟩ := hadj.2.1
      have hn8 : ((q.1 : Int), (q.2 : Int)) ∈ neighborList curR curC :=
        adj8_mem_neighborList hadj.2.2
      have hmarked := fmark _ hn8
        (by show (0 : Int) ≤ (q.1 : Int); exact Int.natCast_nonneg q.1)
        (by show (q.1 : Int) < (rows : Int); exact_mod_cast hqr)
        (by show (0 : Int) ≤ (q.2 : Int); exact Int.natCast_nonneg q.2)
        (by show (q.2 : Int) < (cols : Int); exact_mod_cast hqc)
        (by show grid ((q.1 : Int).toNat * cols + (q.2 : Int).toNat) = 1
            rw [Int.toNat_natCast, Int.toNat_natCast]
            exact hqg)
      dsimp only at hmarked
      rw [Int.toNat_natCast, Int.toNat_natCast] at hmarked
      exact hmarked
    · have hnotr : p ∉ rest := by
        intro hr
        exact hpq (fqm p hr)
      have hclv := hcl p hold
        (by rw [hq]; intro hm; rcases List.mem_cons.mp hm with he | he; exact hpc he;
            exact hnotr he)
        (by simp) q hadj
      exact fmono _ hclv
  · exact absurd hnew hpq

/-- The flood loop with fuel at least the measure drains the queue while
preserving the invariants and growing the trace. -/
theorem floodLoop_inv (grid : Nat → Nat) (rows cols : Nat) (V0 : Nat → Nat) (s : Nat × Nat)
    (fuel : Nat) (st : FloodState)
    (hfuel : meas rows cols st ≤ fuel)
    (hcore : FloodInvCore grid rows cols V0 s st)
    (hcl : procClosedExcept grid rows cols none st) :
    FloodInvCore grid rows cols V0 s (floodLoop grid rows cols fuel st) ∧
    procClosedExcept grid rows cols none (floodLoop grid rows cols fuel st) ∧
    (floodLoop grid rows cols fuel st).queue = [] ∧
    (∀ p ∈ st.cells, p ∈ (floodLoop grid rows cols fuel st).cells) := by
  induction fuel generalizing st with
  | zero =>
    have hlen : st.queue.length = 0 := by
      have := hfuel
      unfold meas at this
      omega
    have hqe : st.queue = [] := List.length_eq_zero.mp hlen
    exact ⟨hcore, hcl, hqe, fun p hp => hp⟩
  | succ fuel ih =>
    by_cases hqe : st.queue = []
    · have hid : floodLoop grid rows cols (fuel + 1) st = st := by
        unfold floodLoop
        rw [if_pos hqe]
      rw [hid]
      exact ⟨hcore, hcl, hqe, fun p hp => hp⟩
    · have hrec : floodLoop grid rows cols (fuel + 1) st =
          floodLoop grid rows cols fuel (floodStep grid rows cols st) := by
        show (if st.queue = [] then st
            else floodLoop grid rows cols fuel (floodStep grid rows cols st)) =
          floodLoop grid rows cols fuel (floodStep grid rows cols st)
        rw [if_neg hqe]
      obtain ⟨score, scl, scellm⟩ := floodStep_inv grid rows cols V0 s st hcore hcl hqe
      have hm := floodStep_meas grid rows cols st hqe
      obtain ⟨rcore, rcl, rq, rcm⟩ := ih (floodStep grid rows cols st) (by omega) score scl
      rw [hrec]
      exact ⟨rcore, rcl, rq, fun p hp => rcm p (scellm p hp)⟩

/-- After a drained flood fill the ghost trace is exactly the connected
component of the seed within the changed cells, provided the visited
buffer the fill started from was closed under changed-cell adjacency. -/
theorem flood_cells_component (grid : Nat → Nat) (rows cols : Nat) (V0 : Nat → Nat)
    (s : Nat × Nat) (st : FloodState)
    (hcore : FloodInvCore grid rows cols V0 s st)
    (hcl : procClosedExcept grid rows cols none st)
    (hq : st.queue = [])
    (hV0closed : ∀ p q, inGrid rows cols p → V0 (cellIdx cols p) = 1 →
      adjC grid rows cols p q → V0 (cellIdx cols q) = 1) :
    ∀ p, p ∈ st.cells ↔ changedCell grid rows cols p ∧ conn grid rows cols s p := by
  intro p
  constructor
  · intro hp
    exact ⟨hcore.cellsChanged p hp, hcore.cellsConn p hp⟩
  · rintro ⟨-, hconn⟩
    induction hconn with
    | refl => exact head?_mem_self hcore.headSeed
    | tail hpath hstep ih =>
      rename_i b c
      have hb : b ∈ st.cells := ih
      have hbq : b ∉ st.queue := by
        rw [hq]
        exact List.not_mem_nil b
      have hv := hcl b hb hbq (by simp) c hstep
      have hcin : inGrid rows cols c := changedCell_inGrid hstep.2.1
      rcases (hcore.viff c hcin).mp hv with hV0 | hcell
      · exfalso
        have hconnc : conn grid rows cols c s :=
          conn_symm (Relation.ReflTransGen.tail hpath hstep)
        have hV0s : V0 (cellIdx cols s) = 1 :=
          visited_conn_closed hV0closed hconnc hcin hV0
        have hsmem : s ∈ st.cells := head?_mem_self hcore.headSeed
        exact hcore.cellsNotV0 s hsmem hV0s
      · exact hcell

/-! ## The outer scan invariant -/

/-- Invariant of the Region Clusterer's row-major scan after the cells
in `done` have been processed: the visited buffer is exactly the union
of the emitted regions' cells; each emitted region's trace is one full
connected component, headed by its row-major least cell, which lies in
the processed part; regions are pairwise disjoint, their seeds strictly
increase in row-major position, and ids are the sequential decimal
strings; every changed processed cell is already visited. -/
structure ScanInv (grid : Nat → Nat) (rows cols : Nat) (done : List (Nat × Nat))
    (st : ScanState) : Prop where
  v01 : vis01 st.visited
  vmem : ∀ p, inGrid rows cols p →
    (st.visited (cellIdx cols p) = 1 ↔ ∃ L ∈ st.regionCells, p ∈ L)
  vclosed : ∀ p q, inGrid rows cols p → st.visited (cellIdx cols p) = 1 →
    adjC grid rows cols p q → st.visited (cellIdx cols q) = 1
  regComp : ∀ L ∈ st.regionCells, ∃ sL, L.head? = some sL ∧ sL ∈ done ∧
    (∀ q ∈ L, cellIdx cols sL ≤ cellIdx cols q) ∧
    (∀ q, q ∈ L ↔ changedCell grid rows cols q ∧ conn grid rows cols sL q)
  regDisj : List.Pairwise (fun L1 L2 => ∀ q, q ∈ L1 → q ∈ L2 → False) st.regionCells
  seedOrder : List.Pairwise (fun L1 L2 => ∀ s1 s2, L1.head? = some s1 →
    L2.head? = some s2 → cellIdx cols s1 < cellIdx cols s2) st.regionCells
  lens : st.regions.length = st.regionCells.length
  count : st.regionCount = st.regions.length
  ids : ∀ k (hk : k < st.regions.length), (st.regions[k]).id = toString (k + 1)
  doneCovered : ∀ p ∈ done, changedCell grid rows cols p →
    st.visited (cellIdx cols p) = 1

/-- One step of the outer scan preserves the invariant, the processed
list growing by the scanned cell. -/
theorem scanCell_inv (grid : Nat → Nat) (rows cols cs w h : Nat) (done : List (Nat × Nat))
    (st : ScanState) (rc : Nat × Nat)
    (hrc : inGrid rows cols rc)
    (hdlt : ∀ p ∈ done, cellIdx cols p < cellIdx cols rc)
    (hdall : ∀ q, inGrid rows cols q → cellIdx cols q < cellIdx cols rc → q ∈ done)
    (hinv : ScanInv grid rows cols done st) :
    ScanInv grid rows cols (done ++ [rc]) (scanCell grid rows cols cs w h st rc) := by
  unfold scanCell
  dsimp only
  by_cases hg : grid (rc.1 * cols + rc.2) = 1 ∧ st.visited (rc.1 * cols + rc.2) = 0
  · rw [if_pos hg]
    have hci : cellIdx cols rc = rc.1 * cols + rc.2 := rfl
    have hcore0 : FloodInvCore grid rows cols st.visited rc
        ⟨[rc], upd st.visited (rc.1 * cols + rc.2) 1, rc.1, rc.1, rc.2, rc.2, [rc]⟩ := by
      refine ⟨?_, ?_, ?_, ?_, ?_, ?_, ?_, ?_, ?_⟩
      · intro i
        dsimp only
        by_cases hi : i = rc.1 * cols + rc.2
        · subst hi
          rw [upd_self]
          right
          rfl
        · rw [upd_other _ _ _ _ hi]
          exact hinv.v01 i
      · intro p hp
        dsimp only
        by_cases hpe : p = rc
        · subst hpe
          rw [hci, upd_self]
          simp
        · have hne : cellIdx cols p ≠ rc.1 * cols + rc.2 := by
            intro he
            exact hpe (cellIdx_inj_pair hp.2 hrc.2 he)
          rw [upd_other _ _ _ _ hne]
          simp [hpe]
      · intro p hp
        dsimp only at hp
        rw [List.mem_singleton] at hp
        subst hp
        exact ⟨hrc.1, hrc.2, hg.1⟩
      · intro p hp
        dsimp only at hp
        rw [List.mem_singleton] at hp
        subst hp
        exact Relation.ReflTransGen.refl
      · intro p hp
        dsimp only at hp
        rw [List.mem_singleton] at hp
        subst hp
        intro hv
        rw [hci] at hv
        omega
      · intro p hp
        dsimp only at hp ⊢
        exact hp
      · dsimp only
        exact List.nodup_singleton _
      · dsimp only
        exact List.nodup_singleton _
      · dsimp only
        rfl
    have hcl0 : procClosedExcept grid rows cols none
        ⟨[rc], upd st.visited (rc.1 * cols + rc.2) 1, rc.1, rc.1, rc.2, rc.2, [rc]⟩ := by
      intro p hp hpq hpe q hadj
      exact absurd hp hpq
    have hmeas0 : meas rows cols
        ⟨[rc], upd st.visited (rc.1 * cols + rc.2) 1, rc.1, rc.1, rc.2, rc.2, [rc]⟩ ≤
        rows * cols := by
      have hidxlt : rc.1 * cols + rc.2 < rows * cols := idx_lt_total hrc.1 hrc.2
      have h1 := @unvisCount_upd rows cols st.visited _ hidxlt hg.2
      have h2 := unvisCount_le rows cols st.visited
      unfold meas
      dsimp only
      rw [List.length_singleton]
      omega
    obtain ⟨fcore, fcl, fq, fcellm⟩ :=
      floodLoop_inv grid rows cols st.visited rc (rows * cols)
        ⟨[rc], upd st.visited (rc.1 * cols + rc.2) 1, rc.1, rc.1, rc.2, rc.2, [rc]⟩
        hmeas0 hcore0 hcl0
    have hcomp := flood_cells_component grid rows cols st.visited rc _ fcore fcl fq
      hinv.vclosed
    refine ⟨?_, ?_, ?_, ?_, ?_, ?_, ?_, ?_, ?_, ?_⟩
    · intro i
      dsimp only
      exact fcore.v01 i
    · intro p hp
      dsimp only
      rw [fcore.viff p hp, hinv.vmem p hp]
      constructor
      · rintro (⟨L, hL, hpL⟩ | hpf)
        · exact ⟨L, List.mem_append_left _ hL, hpL⟩
        · exact ⟨_, List.mem_append_right _ (List.mem_singleton_self _), hpf⟩
      · rintro ⟨L, hL, hpL⟩
        rcases List.mem_append.mp hL with h1 | h1
        · exact Or.inl ⟨L, h1, hpL⟩
        · rw [List.mem_singleton] at h1
          exact Or.inr (h1 ▸ hpL)
    · intro p q hp hv hadj
      dsimp only at hv ⊢
      have hqin : inGrid rows cols q := changedCell_inGrid hadj.2.1
      rcases (fcore.viff p hp).mp hv with hold | hmem
      · exact (fcore.viff q hqin).mpr (Or.inl (hinv.vclosed p q hp hold hadj))
      · exact fcl p hmem (by rw [fq]; exact List.not_mem_nil p) (by simp) q hadj
    · intro L hL
      dsimp only at hL
      rcases List.mem_append.mp hL with h1 | h1
      · obtain ⟨sL, e1, e2, e3, e4⟩ := hinv.regComp L h1
        exact ⟨sL, e1, List.mem_append_left _ e2, e3, e4⟩
      · rw [List.mem_singleton] at h1
        subst h1
        refine ⟨rc, fcore.headSeed, List.mem_append_right _ (List.mem_singleton_self _),
          ?_, hcomp⟩
        intro q hq
        by_contra hlt
        push_neg at hlt
        have hqch : changedCell grid rows cols q := ((hcomp q).mp hq).1
        have hqdone : q ∈ done := hdall q (changedCell_inGrid hqch) hlt
        have hqv : st.visited (cellIdx cols q) = 1 := hinv.doneCovered q hqdone hqch
        exact fcore.cellsNotV0 q hq hqv
    · dsimp only
      rw [List.pairwise_append]
      refine ⟨hinv.regDisj, by simp, ?_⟩
      intro L1 hL1 L2 hL2 q hq1 hq2
      rw [List.mem_singleton] at hL2
      subst hL2
      have hqch : changedCell grid rows cols q := by
        obtain ⟨sL, _, _, _, e4⟩ := hinv.regComp L1 hL1
        exact ((e4 q).mp hq1).1
      have hv1 : st.visited (cellIdx cols q) = 1 :=
        (hinv.vmem q (changedCell_inGrid hqch)).mpr ⟨L1, hL1, hq1⟩
      exact fcore.cellsNotV0 q hq2 hv1
    · dsimp only
      rw [List.pairwise_append]
      refine ⟨hinv.seedOrder, by simp, ?_⟩
      intro L1 hL1 L2 hL2 s1 s2 h1 h2
      rw [List.mem_singleton] at hL2
      subst hL2
      obtain ⟨sL, hsL, hsLdone, _, _⟩ := hinv.regComp L1 hL1
      have he1 : s1 = sL := Option.some_inj.mp (h1.symm.trans hsL)
      have he2 : s2 = rc := Option.some_inj.mp (h2.symm.trans fcore.headSeed)
      rw [he1, he2]
      exact hdlt sL hsLdone
    · dsimp only
      rw [List.length_append, List.length_append, List.length_singleton,
        List.length_singleton, hinv.lens]
    · dsimp only
      rw [List.length_append, List.length_singleton, hinv.count]
    · intro k hk
      dsimp only at hk ⊢
      rw [List.length_append, List.length_singleton] at hk
      by_cases hklt : k < st.regions.length
      · rw [List.getElem_append_left hklt]
        exact hinv.ids k hklt
      · have hkeq : k = st.regions.length := by omega
        subst hkeq
        rw [List.getElem_append_right (le_refl _)]
        simp only [Nat.sub_self, List.getElem_cons_zero]
        rw [hinv.count]
    · intro p hp hch
      dsimp only
      rcases List.mem_append.mp hp with hd | hs
      · exact (fcore.viff p (changedCell_inGrid hch)).mpr
          (Or.inl (hinv.doneCovered p hd hch))
      · rw [List.mem_singleton] at hs
        subst hs
        exact (fcore.viff p (changedCell_inGrid hch)).mpr
          (Or.inr (fcellm p (List.mem_singleton_self p)))
  · rw [if_neg hg]
    refine ⟨hinv.v01, hinv.vmem, hinv.vclosed, ?_, hinv.regDisj, hinv.seedOrder,
      hinv.lens, hinv.count, hinv.ids, ?_⟩
    · intro L hL
      obtain ⟨sL, e1, e2, e3, e4⟩ := hinv.regComp L hL
      exact ⟨sL, e1, List.mem_append_left _ e2, e3, e4⟩
    · intro p hp hch
      rcases List.mem_append.mp hp with hd | hs
      · exact hinv.doneCovered p hd hch
      · rw [List.mem_singleton] at hs
        subst hs
        rcases hinv.v01 (cellIdx cols p) with h0 | h1
        · exact absurd ⟨hch.2.2, h0⟩ hg
        · exact h1

/-- The invariant holds of the initial scan state with nothing
processed. -/
theorem scanInv_init (grid : Nat → Nat) (rows cols : Nat) :
    ScanInv grid rows cols [] ⟨fun _ => 0, [], [], 0⟩ := by
  refine ⟨?_, ?_, ?_, ?_, ?_, ?_, ?_, ?_, ?_, ?_⟩
  · intro i
    exact Or.inl rfl
  · intro p hp
    dsimp only
    constructor
    · intro hv
      exact absurd hv (by simp)
    · rintro ⟨L, hL, -⟩
      exact absurd hL (List.not_mem_nil L)
  · intro p q hp hv hadj
    exact absurd hv (by simp)
  · intro L hL
    exact absurd hL (List.not_mem_nil L)
  · exact List.Pairwise.nil
  · exact List.Pairwise.nil
  · rfl
  · rfl
  · intro k hk
    exact absurd hk (by simp)
  · intro p hp
    exact absurd hp (List.not_mem_nil p)

/-- Folding the scan over the remaining cells of a row-major split of
the grid turns the invariant at the split into the invariant at the full
cell list. -/
theorem foldl_scanCell_inv (grid : Nat → Nat) (rows cols cs w h : Nat)
    (todo done : List (Nat × Nat)) (st : ScanState)
    (hsplit : gridCells rows cols = done ++ todo)
    (hinv : ScanInv grid rows cols done st) :
    ScanInv grid rows cols (gridCells rows cols)
      (todo.foldl (scanCell grid rows cols cs w h) st) := by
  induction todo generalizing done st with
  | nil =>
    rw [List.foldl_nil, List.append_nil] at *
    rw [hsplit]
    exact hinv
  | cons rc todo ih =>
    have hpw := pairwise_rm_gridCells rows cols
    rw [hsplit, List.pairwise_append] at hpw
    obtain ⟨hpwdone, hpwsuf, hpwcross⟩ := hpw
    have hmemrc : rc ∈ gridCells rows cols := by
      rw [hsplit]
      exact List.mem_append_right _ (List.mem_cons_self _ _)
    have hrc : inGrid rows cols rc := mem_gridCells.mp hmemrc
    have hdlt : ∀ p ∈ done, cellIdx cols p < cellIdx cols rc := by
      intro p hp
      exact hpwcross p hp rc (List.mem_cons_self _ _)
    have hsufcons := List.pairwise_cons.mp hpwsuf
    have hdall : ∀ q, inGrid rows cols q → cellIdx cols q < cellIdx cols rc → q ∈ done := by
      intro q hq hlt
      have hqmem : q ∈ gridCells rows cols := mem_gridCells.mpr ⟨hq.1, hq.2⟩
      rw [hsplit] at hqmem
      rcases List.mem_append.mp hqmem with hd | hs
      · exact hd
      · rcases List.mem_cons.mp hs with he | ht
        · rw [he] at hlt
          exact absurd hlt (lt_irrefl _)
        · have := hsufcons.1 q ht
          omega
    have hstep := scanCell_inv grid rows cols cs w h done st rc hrc hdlt hdall hinv
    have hsplit2 : gridCells rows cols = (done ++ [rc]) ++ todo := by
      rw [hsplit, List.append_assoc, List.singleton_append]
    rw [List.foldl_cons]
    exact ih (done ++ [rc]) (scanCell grid rows cols cs w h st rc) hsplit2 hstep

/-- The full row-major scan satisfies the invariant at the complete cell
list. -/
theorem clusterScan_inv (grid : Nat → Nat) (rows cols cs w h : Nat) :
    ScanInv grid rows cols (gridCells rows cols) (clusterScan grid rows cols cs w h) :=
  foldl_scanCell_inv grid rows cols cs w h (gridCells rows cols) [] ⟨fun _ => 0, [], [], 0⟩
    rfl (scanInv_init grid rows cols)

/-! ## Concrete inputs used by the individual claims -/

/-- 1×1 all-black image (every byte 0). -/
def c1Old : Image := ⟨1, 1, fun _ => 0⟩

/-- 2×2 all-white image: its dimensions differ from `c1Old`'s. -/
def c1New : Image := ⟨2, 2, fun _ => 255⟩

/-- 60×1 all-black image. -/
def c4Old : Image := ⟨60, 1, fun _ => 0⟩

/-- 60×1 image that is white at the pixels `x < 10`, `20 ≤ x < 27` and
`40 ≤ x < 50` of its single row, so against `c4Old` its three 20-pixel
cells hold 10, 7 and 10 differing pixels respectively. -/
def c4New : Image :=
  ⟨60, 1, fun i =>
    let x := i / 4 % 60
    if (x < 10 ∨ (20 ≤ x ∧ x < 27) ∨ (40 ≤ x ∧ x < 50)) ∧ i % 4 ≠ 3 then 255 else 0⟩

/-- 6×1 all-black image. -/
def c6Old : Image := ⟨6, 1, fun _ => 0⟩

/-- 6×1 all-white image: all 6 pixels of the single cell differ, so one
region is produced. -/
def c6New : Image := ⟨6, 1, fun _ => 255⟩

/-- The degenerate 0×0 image. -/
def c7Img : Image := ⟨0, 0, fun _ => 0⟩

/-- 1×1 all-black image. -/
def c9Old : Image := ⟨1, 1, fun _ => 0⟩

/-- 1×1 all-white image: its single pixel differs strongly from `c9Old`'s
(channel distance 765 > 100), but one differing pixel is below the
cell-changed threshold 5. -/
def c9New : Image := ⟨1, 1, fun _ => 255⟩

/-- 46×86 all-black image (5×3 grid of cells at cell size 20). -/
def c10Old : Image := ⟨46, 86, fun _ => 0⟩

/-- 46×86 image that is white exactly on the cells of a C-shaped
component (cell column 0 plus cell rows 0 and 4) and on the lone cell
`(2,2)` sitting in its concavity, which is not 8-adjacent to it. -/
def c10New : Image :=
  ⟨46, 86, fun i =>
    let p := i / 4
    let x := p % 46
    let y := p / 46
    let r := y / 20
    let c := x / 20
    if (c = 0 ∨ r = 0 ∨ r = 4 ∨ (r = 2 ∧ c = 2)) ∧ i % 4 ≠ 3 then 255 else 0⟩

/-! ## Claims settled on concrete inputs -/

/-- C1, counterexample: the pipeline performs no dimension validation.
On a 1×1 old image against a 2×2 new image (widths differ) it does not
fail: it returns a complete result, including a mask with an opaque
magenta pixel — so a mismatched pair neither raises `DimensionMismatch`
nor withholds output. -/
theorem claim1_counterexample :
    c1Old.width ≠ c1New.width ∧
    (detectVisualDifferences c1Old c1New).regions = [] ∧
    (detectVisualDifferences c1Old c1New).maskData 0 = 255 ∧
    (detectVisualDifferences c1Old c1New).maskData 3 = 255 := by
  decide

/-- C4, counterexample: raising `cellChangedThreshold` from 5 to 7 on the
fixed pair `c4Old`/`c4New` *increases* the number of detected regions
from 1 to 2: the middle cell (7 differing pixels) drops out and splits
the single 3-cell component in two. -/
theorem claim4_counterexample :
    ¬ ((detectWith c4Old c4New 20 100 7).regions.length ≤
        (detectWith c4Old c4New 20 100 5).regions.length) := by
  decide

/-- C7, counterexample: on a 0×0 input the pipeline does fail before
returning a result, but with the `IndexSizeError` DOMException thrown
by `ctx.getImageData` on the zero-dimension canvas — not with an
`InvalidInput` error; no `InvalidInput` value or dimension validation
exists anywhere in the repository. -/
theorem claim7_counterexample :
    c7Img.width = 0 ∧
    detectVisualDifferencesE c7Img c7Img = Except.error "IndexSizeError" ∧
    "IndexSizeError" ≠ "InvalidInput" :=
  ⟨rfl, rfl, by decide⟩

/-- C9: on a pair differing in a single pixel, the returned mask holds
opaque magenta `(255,0,255,255)` at that pixel while the region list is
empty — the mask records every differing pixel regardless of the cell
gate, so mask and regions can disagree about whether anything changed. -/
theorem claim9_mask_disagrees_with_regions :
    (detectVisualDifferences c9Old c9New).regions = [] ∧
    (detectVisualDifferences c9Old c9New).maskData 0 = 255 ∧
    (detectVisualDifferences c9Old c9New).maskData 1 = 0 ∧
    (detectVisualDifferences c9Old c9New).maskData 2 = 255 ∧
    (detectVisualDifferences c9Old c9New).maskData 3 = 255 := by
  decide

set_option maxRecDepth 100000 in
set_option maxHeartbeats 4000000 in
/-- C10: on `c10Old`/`c10New` the pipeline returns two distinct regions
whose bounding boxes overlap — the second region's box (the lone cell in
the concavity) lies entirely inside the first region's box, even though
the two components' cell sets are disjoint. -/
theorem claim10_overlapping_region_boxes :
    ∃ a b : DiffRegion,
      (detectVisualDifferences c10Old c10New).regions = [a, b] ∧
      a.id ≠ b.id ∧
      a.boundingBox.1 ≤ b.boundingBox.1 ∧
      a.boundingBox.2.1 ≤ b.boundingBox.2.1 ∧
      b.boundingBox.2.2.1 ≤ a.boundingBox.2.2.1 ∧
      b.boundingBox.2.2.2 ≤ a.boundingBox.2.2.2 ∧
      b.boundingBox.1 < b.boundingBox.2.2.1 ∧
      b.boundingBox.2.1 < b.boundingBox.2.2.2 := by
  refine ⟨⟨"1", (0, 0, 100, 100)⟩, ⟨"2", (2000/43, 2000/23, 3000/43, 100)⟩,
    ?_, ?_, ?_, ?_, ?_, ?_, ?_, ?_⟩
  · decide
  all_goals decide

/-- C2: with equal input dimensions, for every in-range pixel the
returned mask holds exactly opaque magenta `(255,0,255,255)` at that
pixel iff the sum of absolute RGB differences exceeds the pixel
threshold 100 (input alpha ignored), otherwise its alpha byte is 0; in
particular every mask alpha is exactly 0 or 255. -/
theorem claim2_mask_pixel_iff (img1 img2 : Image) (x y : Nat)
    (hw : img1.width = img2.width) (hh : img1.height = img2.height)
    (hx : x < img1.width) (hy : y < img1.height) :
    (((detectVisualDifferences img1 img2).maskData ((y * img1.width + x) * 4) = 255 ∧
      (detectVisualDifferences img1 img2).maskData ((y * img1.width + x) * 4 + 1) = 0 ∧
      (detectVisualDifferences img1 img2).maskData ((y * img1.width + x) * 4 + 2) = 255 ∧
      (detectVisualDifferences img1 img2).maskData ((y * img1.width + x) * 4 + 3) = 255) ↔
      colorDist img1.data img2.data ((y * img1.width + x) * 4) > 100) ∧
    (colorDist img1.data img2.data ((y * img1.width + x) * 4) ≤ 100 →
      (detectVisualDifferences img1 img2).maskData ((y * img1.width + x) * 4 + 3) = 0) ∧
    ((detectVisualDifferences img1 img2).maskData ((y * img1.width + x) * 4 + 3) = 0 ∨
      (detectVisualDifferences img1 img2).maskData ((y * img1.width + x) * 4 + 3) = 255) := by
  have hmask : ∀ k, k ≤ 3 →
      (detectVisualDifferences img1 img2).maskData ((y * img1.width + x) * 4 + k) =
        if colorDist img1.data img2.data ((y * img1.width + x) * 4) > 100 then magentaByte k
        else 0 := by
    intro k hk
    have hproj : (detectVisualDifferences img1 img2).maskData =
        (gridDiff (canvasRead img1 img1.width) (canvasRead img2 img1.width)
          img1.width img1.height 20 100 5).1 := rfl
    rw [hproj, gridDiff_mask_char _ _ _ _ _ _ _ x y k (by omega) hx hy hk,
      colorDist_canvasRead img1 img2 img1.width img1.height y x rfl rfl hw.symm hh.symm hx hy]
  have h0 := hmask 0 (by omega)
  rw [Nat.add_zero] at h0
  have h1 := hmask 1 (by omega)
  have h2 := hmask 2 (by omega)
  have h3 := hmask 3 (by omega)
  rw [h0, h1, h2, h3]
  by_cases hd : colorDist img1.data img2.data ((y * img1.width + x) * 4) > 100
  · refine ⟨⟨fun _ => hd, fun _ => ?_⟩, fun hle => absurd hd (by omega), ?_⟩
    · simp [if_pos hd, magentaByte]
    · simp [if_pos hd, magentaByte]
  · refine ⟨⟨fun hcon => ?_, fun hcon => absurd hcon hd⟩, fun _ => ?_, ?_⟩
    · rw [if_neg hd] at hcon
      exact absurd hcon.1 (by omega)
    · rw [if_neg hd]
    · rw [if_neg hd]
      exact Or.inl rfl

/-- Witness for C2 on the concrete 1×1 pair. -/
theorem claim2_mask_pixel_iff_witness :
    (detectVisualDifferences c9Old c9New).maskData ((0 * c9Old.width + 0) * 4) = 255 ∧
    (detectVisualDifferences c9Old c9New).maskData ((0 * c9Old.width + 0) * 4 + 1) = 0 ∧
    (detectVisualDifferences c9Old c9New).maskData ((0 * c9Old.width + 0) * 4 + 2) = 255 ∧
    (detectVisualDifferences c9Old c9New).maskData ((0 * c9Old.width + 0) * 4 + 3) = 255 :=
  (claim2_mask_pixel_iff c9Old c9New 0 0 rfl rfl (by decide) (by decide)).1.mpr (by decide)

/-- C5: comparing an image against itself yields no regions, and every
in-range mask pixel has alpha 0. -/
theorem claim5_identity (img : Image) (x y : Nat) (hx : x < img.width) (hy : y < img.height) :
    (detectVisualDifferences img img).regions = [] ∧
    (detectVisualDifferences img img).maskData ((y * img.width + x) * 4 + 3) = 0 := by
  constructor
  · have hgrid : (gridDiff (canvasRead img img.width) (canvasRead img img.width)
        img.width img.height 20 100 5).2 = fun _ => 0 := by
      rw [gridDiff_eq]
      simp only
      rw [foldl_cellGrid_id _ _ _ _ _ _ _ _ ?_]
      intro rc
      have : (cellPixels 20 img.width img.height rc.1 rc.2).countP
          (pixDiff (canvasRead img img.width) (canvasRead img img.width) img.width 100) = 0 := by
        apply List.countP_eq_zero.mpr
        intro q _
        simp [pixDiff, colorDist_self]
      omega
    have hproj : (detectVisualDifferences img img).regions =
        (clusterScan (gridDiff (canvasRead img img.width) (canvasRead img img.width)
            img.width img.height 20 100 5).2
          ((img.height + 20 - 1) / 20) ((img.width + 20 - 1) / 20)
          20 img.width img.height).regions := rfl
    rw [hproj, hgrid]
    unfold clusterScan
    rw [foldl_scanCell_zero]
  · have hproj : (detectVisualDifferences img img).maskData =
        (gridDiff (canvasRead img img.width) (canvasRead img img.width)
          img.width img.height 20 100 5).1 := rfl
    rw [hproj, gridDiff_mask_char _ _ _ _ _ _ _ x y 3 (by omega) hx hy (by omega),
      if_neg (by rw [colorDist_self]; omega)]

/-- Witness for C5 on a concrete 1×1 image. -/
theorem claim5_identity_witness :
    (detectVisualDifferences c9Old c9Old).regions = [] ∧
    (detectVisualDifferences c9Old c9Old).maskData ((0 * c9Old.width + 0) * 4 + 3) = 0 :=
  claim5_identity c9Old 0 0 (by decide) (by decide)

/-- C4, amended: raising `cellChangedThreshold` shrinks the changed-cell
grid pointwise — every cell flagged at the higher threshold is flagged
at the lower one (the region *count*, by contrast, is not monotone; see
the counterexample). -/
theorem claim4_amended_grid_antitone (d1 d2 : Nat → Nat) (w h cs pt t1 t2 : Nat)
    (ht : t1 ≤ t2) (idx : Nat)
    (hflag : (gridDiff d1 d2 w h cs pt t2).2 idx = 1) :
    (gridDiff d1 d2 w h cs pt t1).2 idx = 1 := by
  rw [gridDiff_eq] at hflag ⊢
  simp only at hflag ⊢
  exact foldl_cellGrid_mono d1 d2 w h cs pt t1 t2 _ ht _ _ _ (fun j hj => hj) idx hflag

/-- Witness for the amended C4 on the concrete 60×1 pair. -/
theorem claim4_amended_grid_antitone_witness :
    (gridDiff (canvasRead c4Old c4Old.width) (canvasRead c4New c4Old.width)
      c4Old.width c4Old.height 20 100 5).2 0 = 1 :=
  claim4_amended_grid_antitone (canvasRead c4Old c4Old.width) (canvasRead c4New c4Old.width)
    c4Old.width c4Old.height 20 100 5 6 (by omega) 0 (by decide)

/-- C7, amended: a zero-width or zero-height input makes the pipeline
throw `IndexSizeError` from the canvas read-back — there is no
`InvalidInput` validation anywhere in the code — while with positive
dimensions the canvas calls succeed and the pipeline returns its
ordinary result. -/
theorem claim7_amended_zero_dims_throw (img1 img2 : Image) :
    (img1.width = 0 ∨ img1.height = 0 →
      detectVisualDifferencesE img1 img2 = Except.error "IndexSizeError") ∧
    (0 < img1.width → 0 < img1.height →
      detectVisualDifferencesE img1 img2 = Except.ok (detectWith img1 img2 20 100 5)) := by
  constructor
  · intro hz
    unfold detectVisualDifferencesE detectWithE
    dsimp only
    unfold getImageData
    rw [if_pos hz]
    rfl
  · intro hw hh
    have h1 : ¬(img1.width = 0 ∨ img1.height = 0) := by omega
    unfold detectVisualDifferencesE detectWithE
    dsimp only
    unfold getImageData
    rw [if_neg h1, if_neg h1]
    rfl

/-- Witness for the amended C7: the 0×0 image throws, a 1×1 pair
returns its ordinary result. -/
theorem claim7_amended_zero_dims_throw_witness :
    detectVisualDifferencesE c7Img c7Img = Except.error "IndexSizeError" ∧
    detectVisualDifferencesE c9Old c9New = Except.ok (detectWith c9Old c9New 20 100 5) :=
  ⟨(claim7_amended_zero_dims_throw c7Img c7Img).1 (Or.inl rfl),
   (claim7_amended_zero_dims_throw c9Old c9New).2 (by decide) (by decide)⟩

/-- C1, amended: the pipeline never validates dimensions and never
fails on a mismatched pair; it compares within the old image's frame —
the result equals the result of comparing against the new image
cropped/padded to the old image's dimensions (out-of-frame areas read
as transparent black). -/
theorem claim1_amended_crop_semantics (img1 img2 : Image) :
    detectVisualDifferences img1 img2 =
      detectVisualDifferences img1 (cropTo img2 img1.width img1.height) := by
  have hagree : ∀ y x t : Nat, y < img1.height → x < img1.width → t ≤ 2 →
      canvasRead img2 img1.width ((y * img1.width + x) * 4 + t) =
      canvasRead (cropTo img2 img1.width img1.height) img1.width
        ((y * img1.width + x) * 4 + t) := by
    intro y x t hy hx ht
    rw [canvasRead_eq_data (cropTo img2 img1.width img1.height) img1.width img1.height y x t
      rfl rfl hx hy (by omega)]
    rfl
  have hgd := gridDiff_congr (canvasRead img1 img1.width) (canvasRead img2 img1.width)
    (canvasRead (cropTo img2 img1.width img1.height) img1.width) img1.width img1.height
    20 100 5 hagree
  show detectWith img1 img2 20 100 5 = detectWith img1 (cropTo img2 img1.width img1.height) 20 100 5
  simp only [detectWith]
  rw [hgd]

/-- C6: every returned region's bounding box is correctly ordered and
sits inside `[0, 100]` on both axes. -/
theorem claim6_box_well_formed (img1 img2 : Image) (reg : DiffRegion)
    (hreg : reg ∈ (detectVisualDifferences img1 img2).regions) :
    0 ≤ reg.boundingBox.1 ∧ reg.boundingBox.1 ≤ reg.boundingBox.2.2.1 ∧
    reg.boundingBox.2.2.1 ≤ 100 ∧ 0 ≤ reg.boundingBox.2.1 ∧
    reg.boundingBox.2.1 ≤ reg.boundingBox.2.2.2 ∧ reg.boundingBox.2.2.2 ≤ 100 := by
  have hproj : (detectVisualDifferences img1 img2).regions =
      (clusterScan (gridDiff (canvasRead img1 img1.width) (canvasRead img2 img1.width)
          img1.width img1.height 20 100 5).2
        ((img1.height + 20 - 1) / 20) ((img1.width + 20 - 1) / 20)
        20 img1.width img1.height).regions := rfl
  rw [hproj] at hreg
  unfold clusterScan at hreg
  exact scan_regions_wf _ _ _ 20 img1.width img1.height (by omega) rfl rfl _
    (fun rc hrc => mem_gridCells.mp hrc) _ (fun reg' hreg' => absurd hreg' (List.not_mem_nil _))
    reg hreg

/-- Witness for C6 on the concrete 6×1 pair, whose single region is
`⟨"1", (0, 0, 100, 100)⟩`. -/
theorem claim6_box_well_formed_witness :
    0 ≤ (DiffRegion.mk "1" (0, 0, 100, 100)).boundingBox.1 ∧
    (DiffRegion.mk "1" (0, 0, 100, 100)).boundingBox.1 ≤
      (DiffRegion.mk "1" (0, 0, 100, 100)).boundingBox.2.2.1 ∧
    (DiffRegion.mk "1" (0, 0, 100, 100)).boundingBox.2.2.1 ≤ 100 ∧
    0 ≤ (DiffRegion.mk "1" (0, 0, 100, 100)).boundingBox.2.1 ∧
    (DiffRegion.mk "1" (0, 0, 100, 100)).boundingBox.2.1 ≤
      (DiffRegion.mk "1" (0, 0, 100, 100)).boundingBox.2.2.2 ∧
    (DiffRegion.mk "1" (0, 0, 100, 100)).boundingBox.2.2.2 ≤ 100 :=
  claim6_box_well_formed c6Old c6New (DiffRegion.mk "1" (0, 0, 100, 100)) (by decide)

/-- C8: under the precondition that both input buffers have the
allocated length `w*h*4` (equal dimensions), every index access of the
Grid Differ and Region Clusterer is in bounds: in the `Option`-returning
embedding with bounds-checked reads and stores, the error branch is
unreachable, for any cell size and thresholds. -/
theorem claim8_no_out_of_bounds (d1 d2 : List Nat) (w h cs pt ct : Nat)
    (h1 : d1.length = w * h * 4) (h2 : d2.length = w * h * 4) :
    (detectCoreB d1 d2 w h cs pt ct).isSome = true := by
  unfold detectCoreB
  obtain ⟨md, hmd, hml, hgl⟩ := gridDiffB_some d1 d2 w h cs pt ct h1 h2
  obtain ⟨rg, hrg⟩ := clusterRegionsB_some md.2 ((h + cs - 1) / cs) ((w + cs - 1) / cs)
    cs w h hgl
  simp only [hmd, hrg, Option.bind_eq_bind, Option.some_bind]
  rfl

/-- Witness for C8 on concrete 1×1 buffers. -/
theorem claim8_no_out_of_bounds_witness :
    (detectCoreB (List.replicate 4 0) [255, 255, 255, 255] 1 1 20 100 5).isSome = true :=
  claim8_no_out_of_bounds (List.replicate 4 0) [255, 255, 255, 255] 1 1 20 100 5
    (by decide) (by decide)

/-- C3: the returned region list of `detectVisualDifferences` is the
row-major scan's output, and that scan emits exactly one region per
8-connected component of the changed cells: region `k` (0-based) has id
`toString (k+1)`; a cell belongs to some region's trace iff it is a
changed cell; the traces are pairwise disjoint; each trace is exactly
the connected component of each of its members; each trace is headed by
its row-major least cell; and the traces are emitted in strictly
increasing row-major order of those head cells. -/
theorem claim3_regions_partition_components (img1 img2 : Image) :
    let w := img1.width
    let h := img1.height
    let cols := (w + 20 - 1) / 20
    let rows := (h + 20 - 1) / 20
    let grid := (gridDiff (canvasRead img1 w) (canvasRead img2 w) w h 20 100 5).2
    let S := clusterScan grid rows cols 20 w h
    (detectVisualDifferences img1 img2).regions = S.regions ∧
    S.regions.length = S.regionCells.length ∧
    (∀ k (hk : k < S.regions.length), (S.regions[k]).id = toString (k + 1)) ∧
    (∀ p, changedCell grid rows cols p ↔ ∃ L ∈ S.regionCells, p ∈ L) ∧
    List.Pairwise (fun L1 L2 => ∀ q, q ∈ L1 → q ∈ L2 → False) S.regionCells ∧
    (∀ L ∈ S.regionCells, ∀ p ∈ L, ∀ q,
      (q ∈ L ↔ changedCell grid rows cols q ∧ conn grid rows cols p q)) ∧
    (∀ L ∈ S.regionCells, ∀ sL, L.head? = some sL →
      ∀ q ∈ L, cellIdx cols sL ≤ cellIdx cols q) ∧
    List.Pairwise (fun L1 L2 => ∀ s1 s2, L1.head? = some s1 → L2.head? = some s2 →
      cellIdx cols s1 < cellIdx cols s2) S.regionCells := by
  intro w h cols rows grid S
  have hinv := clusterScan_inv grid rows cols 20 w h
  refine ⟨rfl, hinv.lens, hinv.ids, ?_, hinv.regDisj, ?_, ?_, hinv.seedOrder⟩
  · intro p
    constructor
    · intro hch
      have hmem : p ∈ gridCells rows cols := mem_gridCells.mpr ⟨hch.1, hch.2.1⟩
      exact (hinv.vmem p (changedCell_inGrid hch)).mp (hinv.doneCovered p hmem hch)
    · rintro ⟨L, hL, hpL⟩
      obtain ⟨sL, _, _, _, e4⟩ := hinv.regComp L hL
      exact ((e4 p).mp hpL).1
  · intro L hL p hpL q
    obtain ⟨sL, _, _, _, e4⟩ := hinv.regComp L hL
    have hp := (e4 p).mp hpL
    constructor
    · intro hqL
      have hq := (e4 q).mp hqL
      exact ⟨hq.1, conn_trans (conn_symm hp.2) hq.2⟩
    · rintro ⟨hqc, hconn⟩
      exact (e4 q).mpr ⟨hqc, conn_trans hp.2 hconn⟩
  · intro L hL sL hhead q hq
    obtain ⟨sL2, hhead2, _, hmin, _⟩ := hinv.regComp L hL
    have he : sL2 = sL := Option.some_inj.mp (hhead2.symm.trans hhead)
    exact he ▸ hmin q hq

/-- Witness for C3 on the concrete 60×1 pair: the pipeline's region list
is the row-major scan's output there. -/
theorem claim3_regions_partition_components_witness :
    (detectVisualDifferences c4Old c4New).regions =
      (clusterScan
        ((gridDiff (canvasRead c4Old c4Old.width) (canvasRead c4New c4Old.width)
          c4Old.width c4Old.height 20 100 5).2)
        ((c4Old.height + 20 - 1) / 20) ((c4Old.width + 20 - 1) / 20) 20
        c4Old.width c4Old.height).regions :=
  (claim3_regions_partition_components c4Old c4New).1

end TaxDiff
